import Mathlib

/-!
Verification of the archive ingestion and decoding core of `src/lib/mockApi.ts`
(spectra-explorer).  JavaScript numbers are modelled as rationals (all values
arising in the claims are finite decimals), strings as Lean strings processed
through explicit character lists, nullable values as `Option`, thrown
exceptions as `Option.none` (per dataset) or `Except.error` (archive level),
and the binary decoding boundary by supplying the already decoded number list.
-/

namespace SpectraExplorer

/-- ASCII lower-casing of a character list, modelling JS `toLowerCase` on the
character range the parser cares about. -/
def lowerChars (l : List Char) : List Char := l.map Char.toLower

/-- Lower-case a string, modelling JS `String.prototype.toLowerCase`. -/
def jsLower (s : String) : String := String.mk (lowerChars s.data)

/-- Upper-case a string, modelling JS `String.prototype.toUpperCase`. -/
def jsUpper (s : String) : String := String.mk (s.data.map Char.toUpper)

/-- Does `p` occur as a contiguous sublist of the haystack?  Models JS
`String.prototype.includes`. -/
def hasSub (p : List Char) : List Char → Bool
  | [] => p.isPrefixOf []
  | c :: t => p.isPrefixOf (c :: t) || hasSub p t

/-- `strIncludes s pat` models `s.includes(pat)` in JS. -/
def strIncludes (s pat : String) : Bool := hasSub pat.data s.data

/-- JS whitespace test for the characters relevant to descriptor parsing. -/
def isWs (c : Char) : Bool := c = ' ' || c = '\t' || c = '\r' || c = '\n'

/-- Drop leading whitespace. -/
def wsDropL (l : List Char) : List Char := l.dropWhile isWs

/-- Drop trailing whitespace. -/
def wsDropR (l : List Char) : List Char := (l.reverse.dropWhile isWs).reverse

/-- Trim whitespace at both ends, modelling JS `String.prototype.trim`. -/
def trimChars (l : List Char) : List Char := wsDropR (wsDropL l)

/-- Split a character list at every occurrence of `sep` (JS `split(sep)`). -/
def splitOnChar (sep : Char) : List Char → List (List Char)
  | [] => [[]]
  | c :: t =>
    let rest := splitOnChar sep t
    if c = sep then [] :: rest
    else match rest with
      | [] => [[c]]
      | r :: rs => (c :: r) :: rs

/-- The experiment type enumeration of `mockApi.ts` (`'2D'` is `TwoD`). -/
inductive SpectrumType where
  | CW | EDFS | T1 | T2 | Rabi | HYSCORE | TwoD | Unknown
  deriving DecidableEq, Repr

/-- Axis metadata visible to `isTimeAxis` / `normalizeAxisStart`: the `name`
and `unit` fields, with `""` standing for a missing JS field. -/
structure AxisMeta where
  name : String
  unit : String
  deriving DecidableEq, Repr

/-- `isTimeAxis` from `mockApi.ts` (lines 111–123). -/
def isTimeAxis (m : AxisMeta) : Bool :=
  let name := jsLower m.name
  let unit := jsLower m.unit
  unit = "s" || unit = "ms" || unit = "us" || unit = "µs" || unit = "ns" ||
    strIncludes name "time" || strIncludes name "tau"

/-- `normalizeAxisStart` from `mockApi.ts` (lines 125–131); a `null` axis is
`none`, and the `Number.isFinite` guard is vacuous over `ℚ`. -/
def normalizeAxisStart (axis : Option (List ℚ)) (m : AxisMeta) : Option (List ℚ) :=
  match axis with
  | none => none
  | some [] => some []
  | some (a :: t) =>
    if !isTimeAxis m then some (a :: t)
    else if a = 0 then some (a :: t)
    else some ((a :: t).map (fun v => v - a))

/-- Minimum of a number list, modelling `Math.min(...x)` on a non-empty `x`. -/
def listMin : List ℚ → ℚ
  | [] => 0
  | h :: t => t.foldl min h

/-- The time types of `normalizeXForTimeType`. -/
def timeTypes : List SpectrumType := [.T1, .T2, .Rabi, .EDFS]

/-- `normalizeXForTimeType` from `mockApi.ts` (lines 133–146). -/
def normalizeXForTimeType (x : List ℚ) (type : SpectrumType) (xLabel : String) :
    List ℚ :=
  if !(timeTypes.contains type) && !(strIncludes (jsLower xLabel) "time") then x
  else if x.isEmpty then x
  else if listMin x = 0 then x
  else x.map (fun v => v - listMin x)

/-- `inferSpectrumType` from `mockApi.ts` (lines 148–163); `family` is the
string `metadata?.classification?.experiment_family || ''`. -/
def inferSpectrumType (datasetName : String) (family : String) (is2D : Bool) :
    SpectrumType :=
  let name := jsLower datasetName
  if strIncludes name "edfs" then .EDFS
  else if strIncludes name "rabi" then .Rabi
  else if strIncludes name "t1" then .T1
  else if strIncludes name "t2" then .T2
  else if strIncludes name "hyscore" then .HYSCORE
  else if strIncludes name "2d" then .TwoD
  else if strIncludes name "cw" then .CW
  else if strIncludes family "CW" then (if is2D then .TwoD else .CW)
  else if strIncludes family "PULSED" then (if is2D then .TwoD else .T1)
  else if is2D then .TwoD else .Unknown

/-- The classifier as the spec states it: a fixed priority table searched for
the first case-insensitive substring match, then the family-hint fallback. -/
def keywordTable : List (String × SpectrumType) :=
  [("edfs", .EDFS), ("rabi", .Rabi), ("t1", .T1), ("t2", .T2),
   ("hyscore", .HYSCORE), ("2d", .TwoD), ("cw", .CW)]

/-- First keyword of the priority table whose substring occurs in the
(lower-cased) name: the "first match wins" search of the spec. -/
def firstKeyword (name : String) : List (String × SpectrumType) → Option SpectrumType
  | [] => none
  | (kw, ty) :: rest => if strIncludes name kw then some ty else firstKeyword name rest

/-- Specification-side classifier (first match in `keywordTable` wins,
then the family hint, then the 2-D flag). -/
def classifySpec (datasetName : String) (family : String) (is2D : Bool) :
    SpectrumType :=
  match firstKeyword (jsLower datasetName) keywordTable with
  | some ty => ty
  | none =>
    if strIncludes family "CW" then (if is2D then .TwoD else .CW)
    else if strIncludes family "PULSED" then (if is2D then .TwoD else .T1)
    else if is2D then .TwoD else .Unknown

/-- The index ramp `0..p-1` synthesized by `buildAxis`. -/
def iramp (p : ℤ) : List ℚ := (List.range p.toNat).map (fun i : ℕ => (i : ℚ))

/-- `buildAxis` from `mockApi.ts` (lines 91–102).  A missing `values` argument
or a missing `points` argument is `none`; JS truthiness of `points` together
with `points > 0` collapses to `0 < p`. -/
def buildAxis (values : Option (List ℚ)) (points : Option ℤ) : Option (List ℚ) :=
  let pOk : Option ℤ := match points with
    | some p => if 0 < p then some p else none
    | none => none
  match values with
  | some vs =>
    if vs.length ≠ 0 then
      match pOk with
      | some p => if (vs.length : ℤ) ≠ p then some (iramp p) else some vs
      | none => some vs
    else
      match pOk with
      | some p => some (iramp p)
      | none => none
  | none =>
    match pOk with
    | some p => some (iramp p)
    | none => none

/-- The `AxisGuess` record of `mockApi.ts` (line 417); a field that is
`undefined` or non-finite in JS is `none`. -/
structure AxisGuess where
  name : String
  unit : String
  points : ℕ
  min : Option ℚ
  width : Option ℚ
  start : Option ℚ
  stop : Option ℚ
  deriving Repr

/-- `axisVector` from `mockApi.ts` (lines 496–507).  `(ax.points - 1 || 1)`
is `1` exactly when `points = 1` (over the values reaching this code). -/
def axisVector (ax : AxisGuess) : List ℚ :=
  match ax.min, ax.width with
  | some mn, some w =>
    (List.range ax.points).map (fun i : ℕ =>
      mn + (w * (i : ℚ)) / (if (ax.points : ℚ) - 1 = 0 then 1 else (ax.points : ℚ) - 1))
  | _, _ =>
    match ax.start, ax.stop with
    | some st, some sp =>
      (List.range ax.points).map (fun i : ℕ =>
        let t : ℚ := if ax.points = 1 then 0 else (i : ℚ) / ((ax.points : ℚ) - 1)
        st + t * (sp - st))
    | _, _ => (List.range ax.points).map (fun i : ℕ => (i : ℚ))

/-- Numeric value of a digit string (most significant first). -/
def digitsVal (ds : List Char) : ℕ :=
  ds.foldl (fun n c => 10 * n + (c.toNat - 48)) 0

/-- Value of the capture `d1 ++ [sep] ++ d2` of the filename-token number
pattern after `'p'` is replaced by `'.'` and the string is converted by
`Number` (`d2 = []` when the optional fractional part is absent). -/
def fracVal (d1 d2 : List Char) : ℚ :=
  (digitsVal d1 : ℚ) + (digitsVal d2 : ℚ) / (10 : ℚ) ^ d2.length

/-- Match `\d+(?:[p.]\d+)?` followed by the literal `suf` at the head of `l`,
returning the integer and fractional digit runs of the capture.  Greedy with
the one backtracking step JS can take here (dropping the optional group);
shrinking a digit run never helps because the suffixes contain no digits. -/
def numAt (suf : List Char) (l : List Char) : Option (List Char × List Char) :=
  let d1 := l.takeWhile Char.isDigit
  let r1 := l.dropWhile Char.isDigit
  if d1.isEmpty then none
  else
    match r1 with
    | c :: r2 =>
      if c = 'p' ∨ c = '.' then
        let d2 := r2.takeWhile Char.isDigit
        let r3 := r2.dropWhile Char.isDigit
        if !d2.isEmpty && suf.isPrefixOf r3 then some (d1, d2)
        else if suf.isPrefixOf r1 then some (d1, []) else none
      else if suf.isPrefixOf r1 then some (d1, []) else none
    | [] => if suf.isPrefixOf ([] : List Char) then some (d1, []) else none

/-- Search for the JS regex `pre\d+(?:[p.]\d+)?suf` (with literal `pre` and
`suf`) left to right, as `String.prototype.match` does, returning the digit
runs of the first capture. -/
def reSearch (pre suf : List Char) : List Char → Option (List Char × List Char)
  | [] =>
    if pre.isPrefixOf ([] : List Char) then numAt suf (([] : List Char).drop pre.length)
    else none
  | c :: t =>
    match (if pre.isPrefixOf (c :: t) then numAt suf ((c :: t).drop pre.length)
           else none) with
    | some r => some r
    | none => reSearch pre suf t

/-- `lower.match(/pre(\d+(?:[p.]\d+)?)suf/)` followed by
`Number(capture.replace('p', '.'))`, on an already lower-cased token. -/
def reMatch (pre suf : List Char) (lower : List Char) : Option ℚ :=
  (reSearch pre suf lower).map (fun p => fracVal p.1 p.2)

/-- Temperature pattern `/(\d+(?:[p.]\d+)?)k/` on the lower-cased token. -/
def tokTemp (tok : String) : Option ℚ := reMatch [] ['k'] (lowerChars tok.data)

/-- Field pattern `/(\d+(?:[p.]\d+)?)g/`. -/
def tokField (tok : String) : Option ℚ := reMatch [] ['g'] (lowerChars tok.data)

/-- Amplifier pattern `/hpa(\d+(?:[p.]\d+)?)db/`. -/
def tokAmp (tok : String) : Option ℚ :=
  reMatch ['h', 'p', 'a'] ['d', 'b'] (lowerChars tok.data)

/-- Pulse-width pattern `/p(\d+(?:[p.]\d+)?)/`. -/
def tokPulse (tok : String) : Option ℚ := reMatch ['p'] [] (lowerChars tok.data)

/-- Spectral-width pattern `/sw(\d+(?:[p.]\d+)?)/`. -/
def tokSw (tok : String) : Option ℚ := reMatch ['s', 'w'] [] (lowerChars tok.data)

/-- `ParsedParams` from `mockApi.ts` (lines 43–51). -/
structure ParsedParams where
  sampleName : String
  temperatureK : Option ℚ
  fieldG : Option ℚ
  amplifierDb : Option ℚ
  pulseWidth : Option ℚ
  spectralWidth : Option ℚ
  tokens : List String
  deriving DecidableEq, Repr

/-- `rawName.replace(/\.[^.]+$/, '')`: strip one trailing `.extension`. -/
def stripExt (s : String) : String :=
  let r := s.data.reverse
  let ext := r.takeWhile (fun c => c ≠ '.')
  let rest := r.dropWhile (fun c => c ≠ '.')
  match rest with
  | [] => s
  | _ :: before => if ext.isEmpty then s else String.mk before.reverse

/-- `base.split('_').filter(Boolean)`. -/
def splitTokens (base : String) : List String :=
  ((splitOnChar '_' base.data).filter (fun t => !t.isEmpty)).map String.mk

/-- The mutable locals of the token loop in `parseParamsFromName`. -/
structure ParamsAcc where
  temperatureK : Option ℚ
  fieldG : Option ℚ
  amplifierDb : Option ℚ
  pulseWidth : Option ℚ
  spectralWidth : Option ℚ
  deriving DecidableEq, Repr

/-- One iteration of the `for (const tok of tokens)` loop of
`parseParamsFromName` (lines 182–212): each pattern that matches overwrites
its field. -/
def paramsStep (st : ParamsAcc) (tok : String) : ParamsAcc :=
  let st := match tokTemp tok with
    | some v => { st with temperatureK := some v }
    | none => st
  let st := match tokField tok with
    | some v => { st with fieldG := some v }
    | none => st
  let st := match tokAmp tok with
    | some v => { st with amplifierDb := some v }
    | none => st
  let st := match tokPulse tok with
    | some v => { st with pulseWidth := some v }
    | none => st
  match tokSw tok with
  | some v => { st with spectralWidth := some v }
  | none => st

/-- `parseParamsFromName` from `mockApi.ts` (lines 171–223). -/
def parseParamsFromName (rawName : String) : ParsedParams :=
  let base := stripExt rawName
  let tokens := splitTokens base
  let sampleName := tokens.headD base
  let st := tokens.foldl paramsStep ⟨none, none, none, none, none⟩
  { sampleName := sampleName
    temperatureK := st.temperatureK
    fieldG := st.fieldG
    amplifierDb := st.amplifierDb
    pulseWidth := st.pulseWidth
    spectralWidth := st.spectralWidth
    tokens := tokens }

/-- The descriptor mapping built by `parseDscText`: an assignment log; a later
entry for the same key overwrites an earlier one on lookup. -/
abbrev Meta := List (List Char × List Char)

/-- Lookup in the descriptor mapping (`meta[key]` in JS): the most recent
assignment wins. -/
def mget (m : Meta) (k : List Char) : Option (List Char) :=
  (m.reverse.find? (fun e => e.1 = k)).map (fun e => e.2)

/-- The key/value contribution of one descriptor line, exactly as the loop
body of `parseDscText` (lines 421–442) computes it: `none` means the line is
skipped (blank, comment, malformed, or empty key). -/
def lineKV (line : List Char) : Option (List Char × List Char) :=
  let t := trimChars line
  if t.isEmpty then none
  else if t.headD ' ' = '*' then none
  else if t.contains '=' then
    let key := trimChars (t.takeWhile (fun c => c ≠ '=')) |>.map Char.toUpper
    let value := trimChars ((t.dropWhile (fun c => c ≠ '=')).drop 1)
    if key.isEmpty then none else some (key, value)
  else
    let parts := (t.splitOnP (fun c => isWs c)).filter (fun p => !p.isEmpty)
    match parts with
    | k :: v :: _ =>
      if (trimChars k).isEmpty then none
      else some (trimChars k |>.map Char.toUpper, trimChars v)
    | _ => none

/-- `parseDscText` from `mockApi.ts` (lines 419–444), over the `\r?\n`-split
lines of the text (a trailing `\r` is removed by the trim in `lineKV`). -/
def parseDscText (text : String) : Meta :=
  (splitOnChar '\n' text.data).foldl
    (fun m line => match lineKV line with
      | some kv => m ++ [kv]
      | none => m)
    []

/-- Syntactic pieces of a decimal numeral accepted by JS `Number`. -/
structure NumParts where
  neg : Bool
  intDigits : List Char
  fracDigits : List Char
  expNeg : Bool
  expDigits : List Char
  deriving DecidableEq, Repr

/-- Character-level parse of the decimal subset of JS `Number(string)`:
optional sign, digits with an optional fractional part and an optional
exponent; `""` parses as zero and anything else (including the hexadecimal
and `Infinity` forms this repository never produces) is `none`, which the
callers treat exactly like `NaN`. -/
def numParse (raw : List Char) : Option NumParts :=
  let t := trimChars raw
  if t.isEmpty then some ⟨false, [], [], false, []⟩
  else
    let neg := t.headD ' ' = '-'
    let body := if t.headD ' ' = '-' ∨ t.headD ' ' = '+' then t.drop 1 else t
    let d1 := body.takeWhile Char.isDigit
    let r1 := body.dropWhile Char.isDigit
    let hasDot := r1.headD ' ' = '.'
    let afterDot := if hasDot then r1.drop 1 else r1
    let d2 := if hasDot then afterDot.takeWhile Char.isDigit else []
    let r2 := if hasDot then afterDot.dropWhile Char.isDigit else r1
    if d1.isEmpty && d2.isEmpty then none
    else if r2.isEmpty then some ⟨neg, d1, d2, false, []⟩
    else if r2.headD ' ' = 'e' ∨ r2.headD ' ' = 'E' then
      let r3 := r2.drop 1
      let eneg := r3.headD ' ' = '-'
      let ebody := if r3.headD ' ' = '-' ∨ r3.headD ' ' = '+' then r3.drop 1 else r3
      let ed := ebody.takeWhile Char.isDigit
      if ed.isEmpty || !(ebody.dropWhile Char.isDigit).isEmpty then none
      else some ⟨neg, d1, d2, eneg, ed⟩
    else none

/-- Numeric value of a parsed decimal numeral. -/
def numValue (p : NumParts) : ℚ :=
  (if p.neg then -1 else 1) * fracVal p.intDigits p.fracDigits *
    (10 : ℚ) ^ ((if p.expNeg then -1 else 1) * (digitsVal p.expDigits : ℤ))

/-- JS `Number(string)` on the decimal subset; `none` models `NaN` and the
non-finite results. -/
def jsNumber (s : String) : Option ℚ := (numParse s.data).map numValue

/-- `Math.trunc` on a rational (rounding toward zero). -/
def ratTrunc (q : ℚ) : ℤ := if 0 ≤ q then ⌊q⌋ else ⌈q⌉

/-- `getInt` from `mockApi.ts` (lines 446–451). -/
def getInt (m : Meta) (key : List Char) (fallback : ℤ) : ℤ :=
  match mget m (key.map Char.toUpper) with
  | none => fallback
  | some v =>
    match jsNumber (String.mk v) with
    | some q => ratTrunc q
    | none => fallback

/-- `getStr` from `mockApi.ts` (lines 460–463). -/
def getStr (m : Meta) (key : List Char) (fallback : List Char) : List Char :=
  match mget m (key.map Char.toUpper) with
  | none => fallback
  | some v => v

/-- `getFloat` from `mockApi.ts` (lines 453–458), with `fallback = undefined`. -/
def getFloat (m : Meta) (key : List Char) : Option ℚ :=
  match mget m (key.map Char.toUpper) with
  | none => none
  | some v => jsNumber (String.mk v)

/-- `isComplex` from `mockApi.ts` (lines 479–484). -/
def isComplex (m : Meta) : Bool :=
  hasSub "CPLX".data ((getStr m "IKKF".data []).map Char.toUpper) ||
    (m.find? (fun e => e.1 = "IIFMT".data)).isSome

/-- `axisGuess` from `mockApi.ts` (lines 486–494). -/
def axisGuess (m : Meta) (axis : List Char) (points : ℕ) : AxisGuess :=
  { name := String.mk (getStr m (axis ++ "NAM".data) [])
    unit := String.mk (getStr m (axis ++ "UNI".data) [])
    points := points
    min := getFloat m (axis ++ "MIN".data)
    width := getFloat m (axis ++ "WID".data)
    start := getFloat m (axis ++ "STRT".data)
    stop := getFloat m (axis ++ "STOP".data) }

/-- `axisLabel` from `mockApi.ts` (lines 104–109), given name and unit with
`""` for a missing field. -/
def axisLabelCore (name unit fallback : String) : String :=
  (if name = "" then fallback else name) ++
    (if unit = "" then "" else " (" ++ unit ++ ")")

/-- The 1-D spectrum record (`Spectrum1D`), without the externally assigned
random `id`. -/
structure Spec1D where
  filename : String
  type : SpectrumType
  parsedParams : ParsedParams
  xLabel : String
  yLabel : String
  xData : List ℚ
  realData : List ℚ
  imagData : List ℚ
  deriving DecidableEq, Repr

/-- The 2-D spectrum record (`Spectrum2D`), without the `id`. -/
structure Spec2D where
  filename : String
  type : SpectrumType
  parsedParams : ParsedParams
  xLabel : String
  yLabel : String
  xData : List ℚ
  yData : List ℚ
  zData : List (List ℚ)
  deriving DecidableEq, Repr

/-- A parsed spectrum: `Spectrum1D | Spectrum2D`. -/
inductive Spectrum where
  | oneD : Spec1D → Spectrum
  | twoD : Spec2D → Spectrum
  deriving DecidableEq, Repr

/-- `XPTS` of a raw descriptor (default `0`). -/
def rawXpts (meta : Meta) : ℤ := getInt meta "XPTS".data 0

/-- `YPTS` of a raw descriptor (default `1`). -/
def rawYpts (meta : Meta) : ℤ := getInt meta "YPTS".data 1

/-- `npts = xpts * ypts` of the raw loop. -/
def rawNpts (meta : Meta) : ℤ := rawXpts meta * rawYpts meta

/-- `expected = npts * (complexFlag ? 2 : 1)` of the raw loop. -/
def rawExpected (meta : Meta) : ℤ :=
  rawNpts meta * (if isComplex meta then 2 else 1)

/-- The `real` channel of the raw loop: de-interleaved even positions when
the complex flag is set, the full decoded list otherwise. -/
def rawReal (meta : Meta) (numbers : List ℚ) : List ℚ :=
  if isComplex meta then
    (List.range (rawNpts meta).toNat).map (fun i => numbers.getD (i * 2) 0)
  else numbers

/-- The `imag` channel of the raw loop: de-interleaved odd positions when the
complex flag is set, zeros of length `npts` otherwise. -/
def rawImag (meta : Meta) (numbers : List ℚ) : List ℚ :=
  if isComplex meta then
    (List.range (rawNpts meta).toNat).map (fun i => numbers.getD (i * 2 + 1) 0)
  else List.replicate (rawNpts meta).toNat 0

/-- `filename = getStr(meta, 'TITL', base + '.dsc')`. -/
def rawFilename (base : String) (meta : Meta) : String :=
  String.mk (getStr meta "TITL".data (base ++ ".dsc").data)

/-- The inferred type of a raw dataset (line 589). -/
def rawType (base : String) (meta : Meta) : SpectrumType :=
  inferSpectrumType (rawFilename base meta)
    (String.mk (getStr meta "EXPT".data [])) (decide (1 < rawYpts meta))

/-- `xAxisMeta = axisGuess(meta, 'X', xpts)`. -/
def rawXAxisMeta (meta : Meta) : AxisGuess :=
  axisGuess meta "X".data (rawXpts meta).toNat

/-- `yAxisMeta = axisGuess(meta, 'Y', ypts > 0 ? ypts : 1)`. -/
def rawYAxisMeta (meta : Meta) : AxisGuess :=
  axisGuess meta "Y".data (if 0 < rawYpts meta then (rawYpts meta).toNat else 1)

/-- The normalized X vector of a raw dataset (lines 596–597). -/
def rawXVector (base : String) (meta : Meta) : List ℚ :=
  normalizeXForTimeType
    ((normalizeAxisStart (some (axisVector (rawXAxisMeta meta)))
      ⟨(rawXAxisMeta meta).name, (rawXAxisMeta meta).unit⟩).getD [])
    (rawType base meta)
    (axisLabelCore (rawXAxisMeta meta).name (rawXAxisMeta meta).unit "X")

/-- The 1-D spectrum emitted at lines 621–631. -/
def raw1D (base : String) (meta : Meta) (numbers : List ℚ) : Spec1D :=
  { filename := rawFilename base meta
    type := rawType base meta
    parsedParams := parseParamsFromName base
    xLabel := axisLabelCore (rawXAxisMeta meta).name (rawXAxisMeta meta).unit "X"
    yLabel := "Intensity (a.u.)"
    xData := rawXVector base meta
    realData := rawReal meta numbers
    imagData := rawImag meta numbers }

/-- The 2-D spectrum emitted at lines 601–617 (`yVectorRaw` is non-null in
this branch because `ypts > 1`). -/
def raw2D (base : String) (meta : Meta) (numbers : List ℚ) : Spec2D :=
  { filename := rawFilename base meta
    type := rawType base meta
    parsedParams := parseParamsFromName base
    xLabel := axisLabelCore (rawXAxisMeta meta).name (rawXAxisMeta meta).unit "X"
    yLabel := axisLabelCore (rawYAxisMeta meta).name (rawYAxisMeta meta).unit "Y"
    xData := rawXVector base meta
    yData := (normalizeAxisStart (some (axisVector (rawYAxisMeta meta)))
      ⟨(rawYAxisMeta meta).name, (rawYAxisMeta meta).unit⟩).getD
      ((List.range (rawYpts meta).toNat).map (fun i : ℕ => (i : ℚ)))
    zData := (List.range (rawYpts meta).toNat).map
      (fun row => ((rawReal meta numbers).drop (row * (rawXpts meta).toNat)).take
        (rawXpts meta).toNat) }

/-- Per-dataset body of `parseRawBes3t` (lines 542–634) after the `.DTA`
companion was found and decoded: `base` is the descriptor basename, `meta`
the parsed descriptor and `numbers` the decoded number list (the byte-level
`readBinary` boundary).  `none` models the `continue` skips and any throw. -/
def assembleRaw (base : String) (meta : Meta) (numbers : List ℚ) :
    Option Spectrum :=
  if rawXpts meta ≤ 0 then none
  else if (numbers.length : ℤ) ≠ rawExpected meta then none
  else if 1 < rawYpts meta then some (.twoD (raw2D base meta numbers))
  else some (.oneD (raw1D base meta numbers))

/-- Axis metadata from `metadata.json` (`name`, `unit`, `points`), after the
`axis_id` resolution of lines 266–270; `""`/`none` model missing JS fields. -/
structure AxisMetaJ where
  name : String
  unit : String
  points : Option ℤ
  deriving DecidableEq, Repr

/-- `axisMeta?.name || ''` / `axisMeta?.unit || ''` as an `AxisMeta`. -/
def jMeta : Option AxisMetaJ → AxisMeta
  | none => ⟨"", ""⟩
  | some a => ⟨a.name, a.unit⟩

/-- `axisLabel(axis, fallback)` for the structured path (lines 104–109). -/
def axisLabelJ (axis : Option AxisMetaJ) (fallback : String) : String :=
  match axis with
  | none => fallback
  | some a => axisLabelCore a.name a.unit fallback

/-- The final row filter of `parseCsv` (line 82): rows with no finite numbers
are dropped.  CSV cell decoding itself is modelled by supplying the numeric
rows. -/
def rowFilter (rows : List (List ℚ)) : List (List ℚ) :=
  rows.filter (fun r => r.length ≠ 0)

/-- `build1DFromCsv` (lines 234–256): the `forEach` with its running index.
An empty row (unreachable after `parseCsv`) contributes `0` placeholders for
the JS `undefined`. -/
def build1DAux : ℕ → List (List ℚ) → List ℚ × List ℚ × List ℚ
  | _, [] => ([], [], [])
  | idx, row :: rest =>
    let out := build1DAux (idx + 1) rest
    match row with
    | [] => (0 :: out.1, 0 :: out.2.1, 0 :: out.2.2)
    | [a] => ((idx : ℚ) :: out.1, a :: out.2.1, 0 :: out.2.2)
    | [a, b] => (a :: out.1, b :: out.2.1, 0 :: out.2.2)
    | a :: b :: c :: _ => (a :: out.1, b :: out.2.1, c :: out.2.2)

/-- `build1DFromCsv` from index `0`. -/
def build1DFromCsv (rows : List (List ℚ)) : List ℚ × List ℚ × List ℚ :=
  build1DAux 0 rows

/-- One structured-export dataset candidate, after the archive member reads of
`parseSpectrumFromFolder`: resolved dataset name, the family hint of the
metadata, the resolved X/Y axis metadata, the flattened contents of
`axes_x.csv` / `axes_y.csv` (`none` if the member is missing) and the parsed
rows of `data.csv` / `data_real.csv` (`none` if missing). -/
structure FolderInput where
  datasetName : String
  family : String
  xMeta : Option AxisMetaJ
  yMeta : Option AxisMetaJ
  xVals : Option (List ℚ)
  yVals : Option (List ℚ)
  dataCsv : Option (List (List ℚ))
  realCsv : Option (List (List ℚ))
  deriving Repr

/-- Build the 1-D spectrum emitted at lines 281–302 and 318–339. -/
def folder1D (inp : FolderInput) (xAxis : Option (List ℚ)) (rows : List (List ℚ)) :
    Spec1D :=
  let type1D := inferSpectrumType inp.datasetName inp.family false
  let b := build1DFromCsv rows
  let resolvedX : List ℚ :=
    match xAxis with
    | some xs => if xs.length = b.2.1.length then xs else b.1
    | none => b.1
  let timeAdjustedX := normalizeXForTimeType resolvedX type1D
    (axisLabelJ inp.xMeta "X")
  { filename := inp.datasetName
    type := type1D
    parsedParams := parseParamsFromName inp.datasetName
    xLabel := axisLabelJ inp.xMeta "X"
    yLabel := "Intensity (a.u.)"
    xData := timeAdjustedX
    realData := b.2.1
    imagData := b.2.2 }

/-- The normalized X axis of a structured dataset (lines 272 and 275). -/
def folderXAxis (inp : FolderInput) : Option (List ℚ) :=
  normalizeAxisStart
    (buildAxis inp.xVals (inp.xMeta.bind (fun a => a.points))) (jMeta inp.xMeta)

/-- The normalized Y axis of a structured dataset (lines 273 and 276). -/
def folderYAxis (inp : FolderInput) : Option (List ℚ) :=
  normalizeAxisStart
    (buildAxis inp.yVals (inp.yMeta.bind (fun a => a.points))) (jMeta inp.yMeta)

/-- The `looks2D` heuristic of lines 314–316. -/
def folderLooks2D (inp : FolderInput) (realMatrix : List (List ℚ)) : Bool :=
  (match inp.yMeta with
    | some ym => decide (1 < ym.points.getD 0)
    | none => false) ||
  (decide (1 < realMatrix.length) && decide (2 < (realMatrix.headD []).length))

/-- The 2-D spectrum emitted at lines 341–358. -/
def folder2D (inp : FolderInput) (realMatrix : List (List ℚ)) : Spec2D :=
  { filename := inp.datasetName
    type := inferSpectrumType inp.datasetName inp.family true
    parsedParams := parseParamsFromName inp.datasetName
    xLabel := axisLabelJ inp.xMeta "X"
    yLabel := axisLabelJ inp.yMeta "Y"
    xData := (buildAxis (folderXAxis inp)
      (some (((realMatrix.headD []).length : ℤ)))).getD []
    yData := (buildAxis (folderYAxis inp) (some ((realMatrix.length : ℤ)))).getD []
    zData := realMatrix }

/-- `parseSpectrumFromFolder` (lines 258–359) as a pure per-dataset function;
`none` models every thrown error (missing/empty data members). -/
def assembleFolder (inp : FolderInput) : Option Spectrum :=
  match inp.dataCsv with
  | some raw => some (.oneD (folder1D inp (folderXAxis inp) (rowFilter raw)))
  | none =>
    match inp.realCsv with
    | none => none
    | some raw =>
      if (rowFilter raw).length = 0 then none
      else if !(folderLooks2D inp (rowFilter raw)) &&
          ((rowFilter raw).headD []).length ≤ 2 then
        some (.oneD (folder1D inp (folderXAxis inp) (rowFilter raw)))
      else some (.twoD (folder2D inp (rowFilter raw)))

/-- One raw-pair dataset candidate of `parseRawBes3t`: descriptor basename,
descriptor text, and the decoded numbers of the `.DTA` companion (`none` when
no companion member exists). -/
structure RawInput where
  base : String
  dscText : String
  dta : Option (List ℚ)
  deriving Repr

/-- The `try` body of the raw loop (lines 542–638) for one `.DSC` entry. -/
def assembleRawEntry (r : RawInput) : Option Spectrum :=
  match r.dta with
  | none => none
  | some numbers => assembleRaw r.base (parseDscText r.dscText) numbers

/-- Error message thrown at lines 402 and 640. -/
def noSpectraMsg : String := "Archive parsed, but no spectra were recognized."

/-- Error message thrown at line 525. -/
def noFilesMsg : String := "No metadata.json files and no .dsc files found in archive."

/-- `parseRawBes3t` (lines 522–642) over its dataset candidates, already in
processing order; the per-entry `try/catch` is `Option.none` absorption. -/
def parseRawBes3t (rs : List RawInput) : Except String (List Spectrum) :=
  if rs.isEmpty then .error noFilesMsg
  else if (rs.filterMap assembleRawEntry).isEmpty then .error noSpectraMsg
  else .ok (rs.filterMap assembleRawEntry)

/-- `parseZipArchive` (lines 361–406): the structured strategy runs when at
least one `metadata.json` member (other than `metadata_dsc_raw.json`) exists,
otherwise the raw strategy runs on the `.DSC` members. -/
def parseZipArchive (metaDatasets : List FolderInput) (rawDatasets : List RawInput) :
    Except String (List Spectrum) :=
  if metaDatasets.isEmpty then parseRawBes3t rawDatasets
  else if (metaDatasets.filterMap assembleFolder).isEmpty then .error noSpectraMsg
  else .ok (metaDatasets.filterMap assembleFolder)

/-! ### Evaluation helpers for digit-string descriptor fields -/

/-- A digit character is not whitespace. -/
theorem isWs_of_isDigit (c : Char) (h : c.isDigit = true) : isWs c = false := by
  have h1 : ¬ c = ' ' := fun e => by subst e; exact absurd h (by decide)
  have h2 : ¬ c = '\t' := fun e => by subst e; exact absurd h (by decide)
  have h3 : ¬ c = '\r' := fun e => by subst e; exact absurd h (by decide)
  have h4 : ¬ c = '\n' := fun e => by subst e; exact absurd h (by decide)
  simp [isWs, h1, h2, h3, h4]

/-- Trimming does nothing to an all-digit string. -/
theorem trimChars_digits (v : List Char) (h : ∀ c ∈ v, c.isDigit = true) :
    trimChars v = v := by
  have hdrop : ∀ w : List Char, (∀ c ∈ w, c.isDigit = true) → w.dropWhile isWs = w := by
    intro w hw
    cases w with
    | nil => rfl
    | cons c t =>
      rw [List.dropWhile_cons, isWs_of_isDigit c (hw c (by simp))]
      simp
  unfold trimChars wsDropR wsDropL
  rw [hdrop v h, hdrop v.reverse (fun c hc => h c (List.mem_reverse.mp hc)),
    List.reverse_reverse]

/-- `numParse` of a non-empty all-digit string is that digit run. -/
theorem numParse_digits (v : List Char) (hne : v ≠ []) (h : ∀ c ∈ v, c.isDigit = true) :
    numParse v = some ⟨false, v, [], false, []⟩ := by
  obtain ⟨c, t, rfl⟩ : ∃ c t, v = c :: t := by
    cases v with
    | nil => exact absurd rfl hne
    | cons c t => exact ⟨c, t, rfl⟩
  have hc : c.isDigit = true := h c (by simp)
  have hneg : ¬ (c :: t).headD ' ' = '-' := by
    simp only [List.headD_cons]
    intro e
    subst e
    exact absurd hc (by decide)
  have hpos : ¬ (c :: t).headD ' ' = '+' := by
    simp only [List.headD_cons]
    intro e
    subst e
    exact absurd hc (by decide)
  have htake : (c :: t).takeWhile Char.isDigit = c :: t :=
    List.takeWhile_eq_self_iff.mpr h
  have hdrop : (c :: t).dropWhile Char.isDigit = [] :=
    List.dropWhile_eq_nil_iff.mpr (fun x hx => h x hx)
  unfold numParse
  rw [trimChars_digits _ h]
  simp only [List.isEmpty_cons, Bool.false_eq_true, if_false, hneg, hpos, or_self,
    if_false, htake, hdrop, List.headD_nil]
  have hdot : ¬ (' ' = '.') := by decide
  simp [hdot, hne]

/-- `jsNumber` of a non-empty all-digit string. -/
theorem jsNumber_digits (v : List Char) (hne : v ≠ []) (h : ∀ c ∈ v, c.isDigit = true) :
    jsNumber (String.mk v) = some ((digitsVal v : ℚ)) := by
  have hd : (String.mk v).data = v := rfl
  unfold jsNumber
  rw [hd, numParse_digits v hne h]
  simp [numValue, fracVal, digitsVal]

/-- `getInt` of a descriptor key holding a non-empty all-digit value. -/
theorem getInt_digits (m : Meta) (k v : List Char) (fb : ℤ)
    (hm : mget m (k.map Char.toUpper) = some v) (hne : v ≠ [])
    (h : ∀ c ∈ v, c.isDigit = true) :
    getInt m k fb = (digitsVal v : ℤ) := by
  unfold getInt
  rw [hm]
  show (match jsNumber (String.mk v) with
    | some q => ratTrunc q
    | none => fb) = (digitsVal v : ℤ)
  rw [jsNumber_digits v hne h]
  show ratTrunc ((digitsVal v : ℚ)) = (digitsVal v : ℤ)
  unfold ratTrunc
  rw [if_pos (by positivity)]
  exact_mod_cast Int.floor_natCast (digitsVal v)

/-! ### Theorems -/

/-- C3: the classifier matches the display name case-insensitively against
the fixed priority table EDFS, Rabi, T1, T2, HYSCORE, "2d", CW, first match
winning regardless of position; with no substring match a family hint
containing "CW" yields CW (2D when the 2-D flag is set), one containing
"PULSED" yields T1 (2D when set); otherwise 2D when the flag is set and
Unknown otherwise. -/
theorem c3_classifier_priority (datasetName family : String) (is2D : Bool) :
    inferSpectrumType datasetName family is2D = classifySpec datasetName family is2D := by
  unfold inferSpectrumType classifySpec
  simp only [keywordTable, firstKeyword]
  by_cases h1 : strIncludes (jsLower datasetName) "edfs" = true
  · simp [h1]
  by_cases h2 : strIncludes (jsLower datasetName) "rabi" = true
  · simp [h1, h2]
  by_cases h3 : strIncludes (jsLower datasetName) "t1" = true
  · simp [h1, h2, h3]
  by_cases h4 : strIncludes (jsLower datasetName) "t2" = true
  · simp [h1, h2, h3, h4]
  by_cases h5 : strIncludes (jsLower datasetName) "hyscore" = true
  · simp [h1, h2, h3, h4, h5]
  by_cases h6 : strIncludes (jsLower datasetName) "2d" = true
  · simp [h1, h2, h3, h4, h5, h6]
  by_cases h7 : strIncludes (jsLower datasetName) "cw" = true
  · simp [h1, h2, h3, h4, h5, h6, h7]
  simp [h1, h2, h3, h4, h5, h6, h7]

/-- C4: `normalizeXForTimeType` subtracts the minimum from every element when
the type is a time type or the label contains "time" (case-insensitively),
and returns the list unchanged otherwise. -/
theorem c4_time_type_shift (x : List ℚ) (type : SpectrumType) (xLabel : String) :
    normalizeXForTimeType x type xLabel =
      if type ∈ timeTypes ∨ strIncludes (jsLower xLabel) "time" = true then
        x.map (fun v => v - listMin x)
      else x := by
  unfold normalizeXForTimeType
  by_cases hcond : type ∈ timeTypes ∨ strIncludes (jsLower xLabel) "time" = true
  · have hb : (!(timeTypes.contains type) && !(strIncludes (jsLower xLabel) "time"))
        = false := by
      rcases hcond with h | h
      · have hc : timeTypes.contains type = true := List.elem_eq_true_of_mem h
        rw [hc]
        rfl
      · rw [h]
        simp
    rw [hb, if_pos hcond]
    simp only [Bool.false_eq_true, if_false]
    cases x with
    | nil => simp
    | cons a t =>
      simp only [List.isEmpty_cons, Bool.false_eq_true, if_false]
      by_cases hm : listMin (a :: t) = 0
      · simp [hm]
      · simp [hm]
  · have hm : ¬ type ∈ timeTypes ∧ ¬ strIncludes (jsLower xLabel) "time" = true := by
      constructor
      · intro h; exact hcond (Or.inl h)
      · intro h; exact hcond (Or.inr h)
    have hb : (!(timeTypes.contains type) && !(strIncludes (jsLower xLabel) "time"))
        = true := by
      have hc : timeTypes.contains type = false := by
        rcases hcc : timeTypes.contains type with _ | _
        · rfl
        · exact absurd (List.mem_of_elem_eq_true hcc) hm.1
      have hs : strIncludes (jsLower xLabel) "time" = false := by
        rcases hss : strIncludes (jsLower xLabel) "time" with _ | _
        · rfl
        · exact absurd hss hm.2
      rw [hc, hs]
      rfl
    rw [hb, if_neg hcond]
    simp

/-- C5: for a non-empty vector whose axis metadata is time-like,
`normalizeAxisStart` subtracts the original first element from every element,
the first element of the result is exactly `0`, and the operation is
idempotent; a vector with non-time-like metadata is returned unchanged. -/
theorem c5_axis_zero_normalization (v : List ℚ) (m : AxisMeta) (hv : v ≠ []) :
    (isTimeAxis m = true →
      normalizeAxisStart (some v) m = some (v.map (fun a => a - v.headD 0)) ∧
      (v.map (fun a => a - v.headD 0)).headD 1 = 0 ∧
      normalizeAxisStart (normalizeAxisStart (some v) m) m
        = normalizeAxisStart (some v) m) ∧
    (isTimeAxis m = false → normalizeAxisStart (some v) m = some v) := by
  cases v with
  | nil => exact absurd rfl hv
  | cons a t =>
    constructor
    · intro ht
      by_cases ha : a = 0
      · subst ha
        refine ⟨by simp [normalizeAxisStart, ht], by simp, ?_⟩
        simp [normalizeAxisStart, ht]
      · refine ⟨by simp [normalizeAxisStart, ht, ha], by simp, ?_⟩
        have h1 : normalizeAxisStart (some (a :: t)) m
            = some ((0 : ℚ) :: t.map (fun x => x - a)) := by
          simp [normalizeAxisStart, ht, ha]
        rw [h1]
        simp [normalizeAxisStart, ht]
    · intro ht
      simp [normalizeAxisStart, ht]

/-- Witness for C5 at the concrete time-like vector `[2, 5]` with unit
`"ns"`. -/
theorem c5_axis_zero_normalization_witness :
    isTimeAxis ⟨"", "ns"⟩ = true ∧
    normalizeAxisStart (some [(2 : ℚ), 5]) ⟨"", "ns"⟩ = some [0, 3] ∧
    normalizeAxisStart (normalizeAxisStart (some [(2 : ℚ), 5]) ⟨"", "ns"⟩) ⟨"", "ns"⟩
      = normalizeAxisStart (some [(2 : ℚ), 5]) ⟨"", "ns"⟩ := by
  have ht : isTimeAxis ⟨"", "ns"⟩ = true := by decide
  obtain ⟨h1, h2, h3⟩ :=
    (c5_axis_zero_normalization [(2 : ℚ), 5] ⟨"", "ns"⟩ (by decide)).1 ht
  refine ⟨ht, ?_, h3⟩
  rw [h1]
  norm_num

/-- Element `i` of `Array.from` with a generator, in list form. -/
theorem rangeMap_getD (f : ℕ → ℚ) (n i : ℕ) (h : i < n) :
    ((List.range n).map f).getD i 0 = f i := by
  have hl : i < ((List.range n).map f).length := by simpa using h
  rw [List.getD_eq_getElem _ _ hl]
  simp

/-- C6: `buildAxis` uses explicit values verbatim exactly when their count
matches a positive declared point count, synthesizing the index ramp
`0..p-1` otherwise (also when no values are supplied); `axisVector` with
linear min/width yields `min + width * i / (points-1)` (denominator `1` when
`points = 1`), and with only start/stop yields the inclusive linear
interpolation from `start` to `stop`. -/
theorem c6_axis_construction :
    (∀ (vs : List ℚ) (p : ℤ), 0 < p →
      buildAxis (some vs) (some p) =
        if vs ≠ [] ∧ (vs.length : ℤ) = p then some vs else some (iramp p)) ∧
    (∀ p : ℤ, 0 < p → buildAxis none (some p) = some (iramp p)) ∧
    (∀ (ax : AxisGuess) (mn w : ℚ), ax.min = some mn → ax.width = some w →
      (axisVector ax).length = ax.points ∧
      ∀ i, i < ax.points → (axisVector ax).getD i 0 =
        mn + w * i / (if ax.points = 1 then 1 else (ax.points : ℚ) - 1)) ∧
    (∀ ax : AxisGuess, (ax.min = none ∨ ax.width = none) → ∀ st sp : ℚ,
      ax.start = some st → ax.stop = some sp →
      (axisVector ax).length = ax.points ∧
      (∀ i, i < ax.points → (axisVector ax).getD i 0 =
        st + (if ax.points = 1 then 0 else (i : ℚ) / ((ax.points : ℚ) - 1)) * (sp - st)) ∧
      (0 < ax.points → (axisVector ax).headD 0 = st) ∧
      (2 ≤ ax.points → (axisVector ax).getLastD 0 = sp)) := by
  refine ⟨?_, ?_, ?_, ?_⟩
  · intro vs p hp
    by_cases hv : vs = []
    · subst hv
      simp [buildAxis, hp]
    · have hlen : vs.length ≠ 0 := by
        simpa [List.length_eq_zero] using hv
      by_cases hq : (vs.length : ℤ) = p
      · simp [buildAxis, hp, hlen, hq, hv]
      · simp [buildAxis, hp, hlen, hq, hv]
  · intro p hp
    simp [buildAxis, hp]
  · intro ax mn w hmn hw
    have hvec : axisVector ax = (List.range ax.points).map (fun i : ℕ =>
        mn + (w * (i : ℚ)) / (if (ax.points : ℚ) - 1 = 0 then 1 else (ax.points : ℚ) - 1)) := by
      unfold axisVector
      rw [hmn, hw]
    constructor
    · rw [hvec]; simp
    · intro i hi
      rw [hvec, rangeMap_getD _ _ _ hi]
      have hden : ((ax.points : ℚ) - 1 = 0) ↔ (ax.points = 1) := by
        constructor
        · intro h
          have : (ax.points : ℚ) = 1 := by linarith
          exact_mod_cast this
        · intro h
          rw [h]
          norm_num
      by_cases h1 : ax.points = 1
      · rw [if_pos (hden.mpr h1), if_pos h1]
      · rw [if_neg (fun hc => h1 (hden.mp hc)), if_neg h1]
  · intro ax hmw st sp hst hsp
    have hvec : axisVector ax = (List.range ax.points).map (fun i : ℕ =>
        st + (if ax.points = 1 then 0 else (i : ℚ) / ((ax.points : ℚ) - 1)) * (sp - st)) := by
      unfold axisVector
      rcases hm2 : ax.min with _ | mn
      · rcases hw2 : ax.width with _ | w <;> simp only [hm2, hw2, hst, hsp]
      · rcases hw2 : ax.width with _ | w
        · simp only [hm2, hw2, hst, hsp]
        · exfalso
          rcases hmw with h | h
          · rw [hm2] at h
            exact Option.noConfusion h
          · rw [hw2] at h
            exact Option.noConfusion h
    refine ⟨by rw [hvec]; simp, ?_, ?_, ?_⟩
    · intro i hi
      rw [hvec, rangeMap_getD _ _ _ hi]
    · intro hp
      obtain ⟨m, hm⟩ : ∃ m, ax.points = m + 1 := ⟨ax.points - 1, by omega⟩
      rw [hvec, hm]
      rw [List.range_succ_eq_map]
      by_cases h1 : m + 1 = 1 <;> simp [h1]
    · intro hp
      obtain ⟨m, hm⟩ : ∃ m, ax.points = m + 1 := ⟨ax.points - 1, by omega⟩
      have hm1 : m + 1 ≠ 1 := by omega
      have hm0 : (m : ℚ) ≠ 0 := by
        have hmn : m ≠ 0 := by omega
        exact_mod_cast hmn
      rw [hvec, hm, List.range_succ, List.map_append]
      simp only [List.map_cons, List.map_nil, List.getLastD_concat]
      rw [if_neg hm1]
      push_cast
      rw [add_sub_cancel_right, div_self hm0]
      ring

/-- Witness for C6 at concrete axes: three explicit values with a matching
declared count are kept, a mismatch synthesizes the ramp, and the linear
min/width and start/stop syntheses produce the expected sample points. -/
theorem c6_axis_construction_witness :
    buildAxis (some [(5 : ℚ), 7, 9]) (some 3) = some [5, 7, 9] ∧
    buildAxis (some [(5 : ℚ), 7]) (some 3) = some (iramp 3) ∧
    (axisVector ⟨"", "", 4, some 10, some 30, none, none⟩).getD 1 0 = 20 ∧
    (axisVector ⟨"", "", 3, none, none, some 10, some 40⟩).getD 1 0 = 25 ∧
    (axisVector ⟨"", "", 3, none, none, some 10, some 40⟩).headD 0 = 10 ∧
    (axisVector ⟨"", "", 3, none, none, some 10, some 40⟩).getLastD 0 = 40 := by
  obtain ⟨h1, _, h3, h4⟩ := c6_axis_construction
  have e1 := h1 [(5 : ℚ), 7, 9] 3 (by norm_num)
  have e2 := h1 [(5 : ℚ), 7] 3 (by norm_num)
  have e3 := (h3 ⟨"", "", 4, some 10, some 30, none, none⟩ 10 30 rfl rfl).2 1
    (by norm_num)
  obtain ⟨_, e4, e5, e6⟩ := h4 ⟨"", "", 3, none, none, some 10, some 40⟩
    (Or.inl rfl) 10 40 rfl rfl
  refine ⟨?_, ?_, ?_, ?_, ?_, ?_⟩
  · rw [e1, if_pos ⟨by simp, by norm_num⟩]
  · rw [e2, if_neg (by intro h; exact absurd h.2 (by norm_num))]
  · rw [e3]; norm_num
  · rw [e4 1 (by norm_num)]; norm_num
  · exact e5 (by norm_num)
  · exact e6 (by norm_num)

/-- C7: in the raw strategy, a decoded element count differing from
`XPTS*YPTS` (doubled when the complex flag is set) skips the dataset; with
the complex flag set a 1-D dataset is de-interleaved as
`real[i] = values[2i]`, `imag[i] = values[2i+1]` for `i < npts`; without it
`realData` is the full decoded list and `imagData` an all-zero list of the
same length. -/
theorem c7_raw_count_and_deinterleave (base : String) (meta : Meta)
    (numbers : List ℚ) :
    ((numbers.length : ℤ) ≠ rawExpected meta →
      assembleRaw base meta numbers = none) ∧
    (∀ s : Spec1D, assembleRaw base meta numbers = some (.oneD s) →
      (isComplex meta = true →
        s.realData.length = (rawNpts meta).toNat ∧
        s.imagData.length = (rawNpts meta).toNat ∧
        (∀ i, i < (rawNpts meta).toNat →
          s.realData.getD i 0 = numbers.getD (i * 2) 0 ∧
          s.imagData.getD i 0 = numbers.getD (i * 2 + 1) 0)) ∧
      (isComplex meta = false →
        s.realData = numbers ∧
        s.imagData = List.replicate numbers.length 0)) := by
  constructor
  · intro hne
    unfold assembleRaw
    by_cases hx : rawXpts meta ≤ 0
    · rw [if_pos hx]
    · rw [if_neg hx, if_pos hne]
  · intro s heq
    have hx : ¬ (rawXpts meta ≤ 0) := by
      intro hx
      rw [assembleRaw, if_pos hx] at heq
      exact Option.noConfusion heq
    have hlen : ¬ ((numbers.length : ℤ) ≠ rawExpected meta) := by
      intro hcontra
      rw [assembleRaw, if_neg hx, if_pos hcontra] at heq
      exact Option.noConfusion heq
    have hy : ¬ (1 < rawYpts meta) := by
      intro hcontra
      rw [assembleRaw, if_neg hx, if_neg hlen, if_pos hcontra] at heq
      simp at heq
    have hs : s = raw1D base meta numbers := by
      rw [assembleRaw, if_neg hx, if_neg hlen, if_neg hy] at heq
      exact (Spectrum.oneD.inj (Option.some.inj heq)).symm
    subst hs
    constructor
    · intro hc
      refine ⟨by simp [raw1D, rawReal, hc], by simp [raw1D, rawImag, hc], ?_⟩
      intro i hi
      constructor
      · show (rawReal meta numbers).getD i 0 = numbers.getD (i * 2) 0
        rw [rawReal, if_pos hc, rangeMap_getD _ _ _ hi]
      · show (rawImag meta numbers).getD i 0 = numbers.getD (i * 2 + 1) 0
        rw [rawImag, if_pos hc, rangeMap_getD _ _ _ hi]
    · intro hc
      have hnn : (rawNpts meta).toNat = numbers.length := by
        have h1 : (numbers.length : ℤ) = rawExpected meta := not_ne_iff.mp hlen
        rw [rawExpected, hc] at h1
        simp at h1
        omega
      refine ⟨by simp [raw1D, rawReal, hc], ?_⟩
      show rawImag meta numbers = List.replicate numbers.length 0
      rw [rawImag, if_neg (by simp [hc]), hnn]

/-- The raw descriptor used by the witnesses: `XPTS 2`, complex format. -/
def metaC : Meta := [("XPTS".data, "2".data), ("IKKF".data, "CPLX".data)]

/-- `XPTS` of `metaC` evaluates to `2`. -/
theorem metaC_xpts : rawXpts metaC = 2 := by
  rw [rawXpts, getInt_digits metaC "XPTS".data "2".data 0 rfl (by decide) (by decide)]
  decide

/-- `YPTS` of `metaC` falls back to `1`. -/
theorem metaC_ypts : rawYpts metaC = 1 := rfl

/-- `metaC` declares the complex format. -/
theorem metaC_complex : isComplex metaC = true := rfl

/-- The expected decoded count of `metaC` is `4`. -/
theorem metaC_expected : rawExpected metaC = 4 := by
  rw [rawExpected, rawNpts, metaC_xpts, metaC_ypts, metaC_complex]
  norm_num

/-- `metaC` with four decoded values assembles to the 1-D record. -/
theorem metaC_assemble :
    assembleRaw "a" metaC [1, 2, 3, 4] = some (.oneD (raw1D "a" metaC [1, 2, 3, 4])) := by
  unfold assembleRaw
  rw [if_neg (by rw [metaC_xpts]; norm_num),
    if_neg (by rw [metaC_expected]; norm_num),
    if_neg (by rw [metaC_ypts]; norm_num)]

/-- Witness for C7: an empty descriptor with one decoded value is skipped
(count mismatch), and the complex `metaC` dataset `[1,2,3,4]` de-interleaves
to `real[0] = 1`, `imag[0] = 2`. -/
theorem c7_raw_count_and_deinterleave_witness :
    assembleRaw "a" [] [(1 : ℚ)] = none ∧
    (raw1D "a" metaC [1, 2, 3, 4]).realData.getD 0 0 = 1 ∧
    (raw1D "a" metaC [1, 2, 3, 4]).imagData.getD 0 0 = 2 := by
  refine ⟨(c7_raw_count_and_deinterleave "a" [] [(1 : ℚ)]).1 (by decide), ?_, ?_⟩
  all_goals
    obtain ⟨hcpart, _⟩ := (c7_raw_count_and_deinterleave "a" metaC [1, 2, 3, 4]).2
      (raw1D "a" metaC [1, 2, 3, 4]) metaC_assemble
    obtain ⟨_, _, hpt⟩ := hcpart metaC_complex
    have h0 := hpt 0 (by rw [rawNpts, metaC_xpts, metaC_ypts]; decide)
  · rw [h0.1]
    rfl
  · rw [h0.2]
    rfl

/-- A `match` overwrite step equals `Option.or`. -/
theorem matchOr (o r : Option ℚ) :
    (match o with | some b => some b | none => r) = o.or r := by
  cases o <;> rfl

/-- One loop iteration of `parseParamsFromName` overwrites each field with
its pattern match when the pattern succeeds. -/
theorem paramsStep_eq (st : ParamsAcc) (a : String) :
    paramsStep st a =
      { temperatureK := (tokTemp a).or st.temperatureK
        fieldG := (tokField a).or st.fieldG
        amplifierDb := (tokAmp a).or st.amplifierDb
        pulseWidth := (tokPulse a).or st.pulseWidth
        spectralWidth := (tokSw a).or st.spectralWidth } := by
  unfold paramsStep
  cases tokTemp a <;> cases tokField a <;> cases tokAmp a <;> cases tokPulse a <;>
    cases tokSw a <;> rfl

/-- The whole token loop: each field ends up holding the match of the last
token that matched its pattern (first match of the reversed token list). -/
theorem paramsFold (toks : List String) (st : ParamsAcc) :
    toks.foldl paramsStep st =
      { temperatureK := (toks.reverse.findSome? tokTemp).or st.temperatureK
        fieldG := (toks.reverse.findSome? tokField).or st.fieldG
        amplifierDb := (toks.reverse.findSome? tokAmp).or st.amplifierDb
        pulseWidth := (toks.reverse.findSome? tokPulse).or st.pulseWidth
        spectralWidth := (toks.reverse.findSome? tokSw).or st.spectralWidth } := by
  induction toks using List.reverseRecOn generalizing st with
  | nil => rfl
  | append_singleton l a ih =>
    rw [List.foldl_append, List.foldl_cons, List.foldl_nil, ih, paramsStep_eq]
    simp only [List.reverse_append, List.reverse_cons, List.reverse_nil,
      List.nil_append, List.cons_append, List.findSome?_cons]
    cases h1 : tokTemp a <;> cases h2 : tokField a <;> cases h3 : tokAmp a <;>
      cases h4 : tokPulse a <;> cases h5 : tokSw a <;>
      simp [h1, h2, h3, h4, h5, Option.or_assoc]

/-- C9: the parameter extractor strips one trailing extension, splits on
underscores discarding empty tokens, takes the first token as `sampleName`
(falling back to the whole stripped name), fills each numeric field from the
last token matching its pattern (`p` accepted as decimal separator) and
leaves fields without a match `none`; token `3p6K` yields temperature 3.6. -/
theorem c9_param_extraction (rawName : String) :
    parseParamsFromName rawName =
      { sampleName := (splitTokens (stripExt rawName)).headD (stripExt rawName)
        temperatureK := (splitTokens (stripExt rawName)).reverse.findSome? tokTemp
        fieldG := (splitTokens (stripExt rawName)).reverse.findSome? tokField
        amplifierDb := (splitTokens (stripExt rawName)).reverse.findSome? tokAmp
        pulseWidth := (splitTokens (stripExt rawName)).reverse.findSome? tokPulse
        spectralWidth := (splitTokens (stripExt rawName)).reverse.findSome? tokSw
        tokens := splitTokens (stripExt rawName) } ∧
    tokTemp "3p6K" = some (18 / 5) ∧
    (parseParamsFromName "S1_3p6K_3500G").temperatureK = some (18 / 5) ∧
    (parseParamsFromName "S1_3p6K_3500G").fieldG = some 3500 ∧
    (parseParamsFromName "S1_3p6K_3500G").sampleName = "S1" ∧
    (parseParamsFromName "S1_3p6K_3500G").amplifierDb = none := by
  have hgen : ∀ name : String, parseParamsFromName name =
      { sampleName := (splitTokens (stripExt name)).headD (stripExt name)
        temperatureK := (splitTokens (stripExt name)).reverse.findSome? tokTemp
        fieldG := (splitTokens (stripExt name)).reverse.findSome? tokField
        amplifierDb := (splitTokens (stripExt name)).reverse.findSome? tokAmp
        pulseWidth := (splitTokens (stripExt name)).reverse.findSome? tokPulse
        spectralWidth := (splitTokens (stripExt name)).reverse.findSome? tokSw
        tokens := splitTokens (stripExt name) } := by
    intro name
    simp only [parseParamsFromName]
    rw [paramsFold]
    simp
  refine ⟨hgen rawName, ?_, ?_, ?_, ?_, ?_⟩
  · show reMatch [] ['k'] (lowerChars "3p6K".data) = some (18 / 5)
    have hsearch : reSearch [] ['k'] (lowerChars "3p6K".data) = some (['3'], ['6']) := by
      decide
    rw [reMatch, hsearch]
    show some (fracVal ['3'] ['6']) = some (18 / 5)
    rw [fracVal, show digitsVal ['3'] = 3 from by decide,
      show digitsVal ['6'] = 6 from by decide]
    norm_num
  · rw [hgen]
    show List.findSome? tokTemp ["3500G", "3p6K", "S1"] = some (18 / 5)
    have h1 : tokTemp "3500G" = none := by
      rw [tokTemp, reMatch]
      have : reSearch [] ['k'] (lowerChars "3500G".data) = none := by decide
      rw [this]
      rfl
    have h2 : reSearch [] ['k'] (lowerChars "3p6K".data) = some (['3'], ['6']) := by
      decide
    rw [List.findSome?_cons, h1, List.findSome?_cons]
    rw [tokTemp, reMatch, h2]
    show some (fracVal ['3'] ['6']) = some (18 / 5)
    rw [fracVal, show digitsVal ['3'] = 3 from by decide,
      show digitsVal ['6'] = 6 from by decide]
    norm_num
  · rw [hgen]
    show List.findSome? tokField ["3500G", "3p6K", "S1"] = some 3500
    have h1 : reSearch [] ['g'] (lowerChars "3500G".data) = some ("3500".data, []) := by
      decide
    rw [List.findSome?_cons, tokField, reMatch, h1]
    show some (fracVal "3500".data []) = some 3500
    rw [fracVal, show digitsVal "3500".data = 3500 from by decide,
      show digitsVal [] = 0 from rfl]
    norm_num
  · rw [hgen]
    rfl
  · rw [hgen]
    show List.findSome? tokAmp ["3500G", "3p6K", "S1"] = none
    have h1 : reSearch ['h', 'p', 'a'] ['d', 'b'] (lowerChars "3500G".data) = none := by
      decide
    have h2 : reSearch ['h', 'p', 'a'] ['d', 'b'] (lowerChars "3p6K".data) = none := by
      decide
    have h3 : reSearch ['h', 'p', 'a'] ['d', 'b'] (lowerChars "S1".data) = none := by
      decide
    simp [List.findSome?_cons, tokAmp, reMatch, h1, h2, h3, List.findSome?]

/-- `numAt` with an empty suffix succeeds whenever the position starts with a
digit run. -/
theorem numAt_nil_isSome (l : List Char) (h : l.takeWhile Char.isDigit ≠ []) :
    (numAt [] l).isSome = true := by
  have h2 : (l.takeWhile Char.isDigit).isEmpty = false := by
    simpa [List.isEmpty_iff] using h
  unfold numAt
  simp only [h2, Bool.false_eq_true, if_false]
  have hnil : ∀ r : List Char, ([] : List Char).isPrefixOf r = true := fun r => by
    cases r <;> rfl
  split
  · split
    · split <;> simp [hnil]
    · simp [hnil]
  · simp [hnil]

/-- Unfolding equation of `reSearch` at a non-empty text. -/
theorem reSearch_cons (pre suf : List Char) (c : Char) (t : List Char) :
    reSearch pre suf (c :: t) =
      match (if pre.isPrefixOf (c :: t) then numAt suf ((c :: t).drop pre.length)
             else none) with
      | some r => some r
      | none => reSearch pre suf t := by
  conv_lhs => rw [reSearch]

/-- If `'p'` immediately followed by a digit occurs anywhere in the searched
text, the pulse-width regex search succeeds. -/
theorem reSearch_p_digit (e : Char) (he : e.isDigit = true) (v : List Char) :
    ∀ u l, l = u ++ 'p' :: e :: v → (reSearch ['p'] [] l).isSome = true := by
  intro u
  induction u with
  | nil =>
    intro l hl
    subst hl
    have hpre : List.isPrefixOf ['p'] ('p' :: e :: v) = true := by
      show (('p' == 'p') && List.isPrefixOf [] (e :: v)) = true
      simp
    have hnum : (numAt [] (e :: v)).isSome = true := by
      apply numAt_nil_isSome
      rw [List.takeWhile_cons, if_pos he]
      simp
    rw [List.nil_append, reSearch_cons, if_pos hpre,
      show ('p' :: e :: v).drop (['p'].length) = e :: v from rfl]
    cases hA : numAt [] (e :: v) with
    | some r => rfl
    | none =>
      rw [hA] at hnum
      exact absurd hnum (by simp)
  | cons c u2 ih =>
    intro l hl
    subst hl
    rw [List.cons_append, reSearch_cons]
    cases hA : (if List.isPrefixOf ['p'] (c :: (u2 ++ 'p' :: e :: v)) then
        numAt [] ((c :: (u2 ++ 'p' :: e :: v)).drop (['p'].length)) else none) with
    | some r => rfl
    | none => simpa using ih _ rfl

/-- The `pulseWidth` field of an extraction is the last token whose
pulse pattern matches. -/
theorem parseParams_pulse (name : String) :
    (parseParamsFromName name).pulseWidth =
      (splitTokens (stripExt name)).reverse.findSome? tokPulse := by
  simp only [parseParamsFromName]
  rw [paramsFold]
  simp

/-- The `temperatureK` field of an extraction is the last token whose
temperature pattern matches. -/
theorem parseParams_temp (name : String) :
    (parseParamsFromName name).temperatureK =
      (splitTokens (stripExt name)).reverse.findSome? tokTemp := by
  simp only [parseParamsFromName]
  rw [paramsFold]
  simp

/-- C10 (implicit): a filename token using `p` as a decimal separator with
digits on both sides always defines `pulseWidth`, because the pulse pattern
`p<digits>` matches inside the decimal separator; on `"3p6k"` it yields
`pulseWidth = 6` (the digits after the `p`) alongside `temperatureK = 3.6`. -/
theorem c10_pulse_from_decimal_sep :
    (parseParamsFromName "3p6k").pulseWidth = some 6 ∧
    (parseParamsFromName "3p6k").temperatureK = some (18 / 5) ∧
    ∀ name : String,
      (∃ tok ∈ splitTokens (stripExt name), ∃ u v : List Char, ∃ d e : Char,
        d.isDigit = true ∧ e.isDigit = true ∧
        lowerChars tok.data = u ++ d :: 'p' :: e :: v) →
      (parseParamsFromName name).pulseWidth ≠ none := by
  refine ⟨?_, ?_, ?_⟩
  · rw [parseParams_pulse]
    show List.findSome? tokPulse ["3p6k"] = some 6
    have h1 : reSearch ['p'] [] (lowerChars "3p6k".data) = some (['6'], []) := by
      decide
    rw [List.findSome?_cons, tokPulse, reMatch, h1]
    show some (fracVal ['6'] []) = some 6
    rw [fracVal, show digitsVal ['6'] = 6 from by decide,
      show digitsVal [] = 0 from rfl]
    norm_num
  · rw [parseParams_temp]
    show List.findSome? tokTemp ["3p6k"] = some (18 / 5)
    have h1 : reSearch [] ['k'] (lowerChars "3p6k".data) = some (['3'], ['6']) := by
      decide
    rw [List.findSome?_cons, tokTemp, reMatch, h1]
    show some (fracVal ['3'] ['6']) = some (18 / 5)
    rw [fracVal, show digitsVal ['3'] = 3 from by decide,
      show digitsVal ['6'] = 6 from by decide]
    norm_num
  · intro name ⟨tok, htok, u, v, d, e, hd, he, hform⟩
    rw [parseParams_pulse]
    intro hnone
    have hall := List.findSome?_eq_none_iff.mp hnone tok (List.mem_reverse.mpr htok)
    have hsome : (reSearch ['p'] [] (lowerChars tok.data)).isSome = true :=
      reSearch_p_digit e he v (u ++ [d]) _ (by simpa using hform)
    rw [tokPulse, reMatch] at hall
    cases hA : reSearch ['p'] [] (lowerChars tok.data) with
    | none => rw [hA] at hsome; exact absurd hsome (by simp)
    | some r => rw [hA] at hall; exact Option.noConfusion hall

/-- Witness for C10 at the filename `"x_1p5"`, whose token `1p5` uses `p`
as a decimal separator. -/
theorem c10_pulse_from_decimal_sep_witness :
    (parseParamsFromName "x_1p5").pulseWidth ≠ none :=
  c10_pulse_from_decimal_sep.2.2 "x_1p5"
    ⟨"1p5", by decide, [], [], '1', '5', by decide, by decide, by decide⟩

/-- `dropWhile` is idempotent. -/
theorem dropWhile_idem (p : Char → Bool) (l : List Char) :
    (l.dropWhile p).dropWhile p = l.dropWhile p := by
  induction l with
  | nil => rfl
  | cons c t ih =>
    rw [List.dropWhile_cons]
    by_cases hp : p c = true
    · rw [if_pos hp]
      exact ih
    · rw [if_neg hp, List.dropWhile_cons, if_neg hp]

/-- Dropping trailing whitespace is idempotent. -/
theorem wsDropR_idem (l : List Char) : wsDropR (wsDropR l) = wsDropR l := by
  unfold wsDropR
  rw [List.reverse_reverse, dropWhile_idem]

/-- Leading and trailing whitespace removal commute. -/
theorem wsDropL_wsDropR_comm (l : List Char) :
    wsDropL (wsDropR l) = wsDropR (wsDropL l) := by
  induction l with
  | nil => rfl
  | cons c t ih =>
    by_cases hws : isWs c = true
    · by_cases hall : (t.reverse.dropWhile isWs).isEmpty = true
      · have h1 : wsDropR (c :: t) = [] := by
          unfold wsDropR
          rw [List.reverse_cons, List.dropWhile_append, if_pos hall]
          simp [List.dropWhile_cons, hws]
        have h2 : wsDropL t = [] := by
          have hx : wsDropR t = [] := by
            unfold wsDropR
            rw [List.isEmpty_iff.mp hall]
            rfl
          have := ih
          rw [hx] at this
          unfold wsDropL at this ⊢
          unfold wsDropR at this
          rcases hd : t.dropWhile isWs with _ | ⟨a, b⟩
          · rfl
          · rw [hd] at this
            have ha : isWs a = false := by
              have := List.head?_dropWhile_not isWs t
              rw [hd] at this
              simpa using this
            simp only [List.reverse_cons, List.dropWhile_append] at this
            rcases hb : (b.reverse.dropWhile isWs).isEmpty with _ | _
            · rw [hb] at this
              simp only [Bool.false_eq_true, if_false] at this
              exact absurd (congrArg List.length this) (by simp)
            · rw [hb] at this
              simp only [if_true] at this
              rw [List.dropWhile_cons, ha] at this
              simp at this
        rw [h1]
        show wsDropL [] = wsDropR (wsDropL (c :: t))
        unfold wsDropL
        rw [List.dropWhile_cons, if_pos hws]
        show [] = wsDropR (t.dropWhile isWs)
        show [] = wsDropR (wsDropL t)
        rw [h2]
        rfl
      · have h1 : wsDropR (c :: t) = c :: wsDropR t := by
          unfold wsDropR
          rw [List.reverse_cons, List.dropWhile_append, if_neg (by simpa using hall)]
          rw [List.reverse_append]
          rfl
        rw [h1]
        show wsDropL (c :: wsDropR t) = wsDropR (wsDropL (c :: t))
        unfold wsDropL
        rw [List.dropWhile_cons, if_pos hws, List.dropWhile_cons, if_pos hws]
        exact ih
    · have h1 : wsDropL (c :: t) = c :: t := by
        unfold wsDropL
        rw [List.dropWhile_cons, if_neg hws]
      rw [h1]
      by_cases hall : (t.reverse.dropWhile isWs).isEmpty = true
      · have h2 : wsDropR (c :: t) = [c] := by
          unfold wsDropR
          rw [List.reverse_cons, List.dropWhile_append, if_pos hall]
          rw [List.dropWhile_cons, if_neg hws]
          rfl
        rw [h2]
        unfold wsDropL
        rw [List.dropWhile_cons, if_neg hws]
      · have h2 : wsDropR (c :: t) = c :: wsDropR t := by
          unfold wsDropR
          rw [List.reverse_cons, List.dropWhile_append, if_neg (by simpa using hall)]
          rw [List.reverse_append]
          rfl
        rw [h2]
        unfold wsDropL
        rw [List.dropWhile_cons, if_neg hws]

/-- Trimming after trailing-whitespace removal trims. -/
theorem trimChars_wsDropR (v : List Char) :
    trimChars (wsDropR v) = trimChars v := by
  unfold trimChars
  rw [wsDropL_wsDropR_comm, wsDropR_idem]

/-- Trimming after leading-whitespace removal trims. -/
theorem trimChars_wsDropL (k : List Char) :
    trimChars (wsDropL k) = trimChars k := by
  unfold trimChars wsDropL
  rw [dropWhile_idem]

/-- Trimming a whitespace-free list does nothing. -/
theorem trimChars_noWs (l : List Char) (h : ∀ c ∈ l, isWs c = false) :
    trimChars l = l := by
  have hdrop : ∀ w : List Char, (∀ c ∈ w, isWs c = false) → w.dropWhile isWs = w := by
    intro w hw
    cases w with
    | nil => rfl
    | cons c t =>
      rw [List.dropWhile_cons, hw c (by simp)]
      simp
  unfold trimChars wsDropR wsDropL
  rw [hdrop l h, hdrop l.reverse (fun c hc => h c (List.mem_reverse.mp hc)),
    List.reverse_reverse]

/-- Trimming a line of the form `k=v` splits around the `'='`. -/
theorem trimChars_eq_line (k v : List Char) :
    trimChars (k ++ '=' :: v) = wsDropL k ++ '=' :: wsDropR v := by
  have hL : wsDropL (k ++ '=' :: v) = wsDropL k ++ '=' :: v := by
    unfold wsDropL
    rw [List.dropWhile_append]
    by_cases he : (k.dropWhile isWs).isEmpty = true
    · rw [if_pos he, List.isEmpty_iff.mp he, List.dropWhile_cons,
        show isWs '=' = false from rfl]
      simp
    · rw [if_neg he]
  have hR : wsDropR (wsDropL k ++ '=' :: v) = wsDropL k ++ '=' :: wsDropR v := by
    unfold wsDropR
    rw [List.reverse_append, List.reverse_cons, List.append_assoc,
      List.dropWhile_append]
    by_cases he : (v.reverse.dropWhile isWs).isEmpty = true
    · rw [if_pos he, List.isEmpty_iff.mp he]
      rw [List.singleton_append, List.dropWhile_cons, show isWs '=' = false from rfl]
      simp
    · rw [if_neg he]
      simp
  unfold trimChars
  rw [hL, hR]

/-- `trimChars k` starts with the first non-whitespace character of `k`. -/
theorem trimChars_head (k : List Char) (c : Char) (t : List Char)
    (hct : wsDropL k = c :: t) (hcws : isWs c = false) :
    ∃ r, trimChars k = c :: r := by
  have hT : trimChars k = wsDropR (c :: t) := by
    unfold trimChars
    rw [hct]
  unfold wsDropR at hT
  rw [List.reverse_cons, List.dropWhile_append] at hT
  by_cases hall : (t.reverse.dropWhile isWs).isEmpty = true
  · rw [if_pos hall] at hT
    rw [show List.dropWhile isWs [c] = [c] by
      rw [List.dropWhile_cons, hcws]; simp] at hT
    exact ⟨[], by simpa using hT⟩
  · rw [if_neg hall, List.reverse_append] at hT
    exact ⟨(t.reverse.dropWhile isWs).reverse, by simpa using hT⟩

/-- The key/value of a well-formed `KEY=value` line: the key is the
upper-cased trimmed text before the first `'='`, the value the trimmed text
after it. -/
theorem lineKV_eq_line (k v : List Char) (hk : '=' ∉ k)
    (hne : trimChars k ≠ []) (hstar : (trimChars k).headD ' ' ≠ '*') :
    lineKV (k ++ '=' :: v) =
      some ((trimChars k).map Char.toUpper, trimChars v) := by
  have hLne : wsDropL k ≠ [] := by
    intro h
    apply hne
    unfold trimChars
    rw [h]
    rfl
  obtain ⟨c, t, hct⟩ : ∃ c t, wsDropL k = c :: t := by
    rcases hw : wsDropL k with _ | ⟨c, t⟩
    · exact absurd hw hLne
    · exact ⟨c, t, rfl⟩
  have hcws : isWs c = false := by
    have := List.head?_dropWhile_not isWs k
    unfold wsDropL at hct
    rw [hct] at this
    simpa using this
  obtain ⟨r, hhead⟩ := trimChars_head k c t hct hcws
  have hcstar : ¬ (c = '*') := by
    intro h
    apply hstar
    rw [hhead, h]
    rfl
  have hkfree : ∀ x ∈ wsDropL k, (fun ch => decide (ch ≠ '=')) x = true := by
    intro x hx
    simp only [decide_eq_true_eq]
    intro he
    subst he
    exact hk (List.IsSuffix.mem hx
      (by unfold wsDropL; exact List.dropWhile_suffix isWs))
  unfold lineKV
  rw [trimChars_eq_line, hct]
  simp only [List.cons_append, List.isEmpty_cons, Bool.false_eq_true, if_false,
    List.headD_cons]
  rw [if_neg hcstar]
  have hcontains : (c :: (t ++ '=' :: wsDropR v)).contains '=' = true :=
    List.elem_eq_true_of_mem (by simp)
  rw [hcontains]
  simp only [if_true]
  have htake : (c :: (t ++ '=' :: wsDropR v)).takeWhile (fun ch => ch ≠ '=') =
      c :: t := by
    have := @List.takeWhile_append_of_pos _ (fun ch => decide (ch ≠ '='))
      (c :: t) ('=' :: wsDropR v) (by rw [hct] at hkfree; exact hkfree)
    rw [show (c :: t) ++ '=' :: wsDropR v = c :: (t ++ '=' :: wsDropR v) by simp] at this
    rw [this, List.takeWhile_cons]
    simp
  have hdropw : (c :: (t ++ '=' :: wsDropR v)).dropWhile (fun ch => ch ≠ '=') =
      '=' :: wsDropR v := by
    have h1 : (c :: t).dropWhile (fun ch => decide (ch ≠ '=')) = [] := by
      apply List.dropWhile_eq_nil_iff.mpr
      intro x hx
      rw [hct] at hkfree
      exact hkfree x hx
    have h2 := @List.dropWhile_append _ (fun ch => decide (ch ≠ '='))
      (c :: t) ('=' :: wsDropR v)
    rw [h1] at h2
    simp only [List.isEmpty_nil, if_true] at h2
    rw [show (c :: t) ++ '=' :: wsDropR v = c :: (t ++ '=' :: wsDropR v) by simp] at h2
    rw [h2, List.dropWhile_cons]
    simp
  rw [htake, hdropw]
  have hkey : trimChars (c :: t) = trimChars k := by
    rw [← hct, trimChars_wsDropL]
  rw [hkey]
  have hkeyne : ((trimChars k).map Char.toUpper).isEmpty = false := by
    rcases hT : trimChars k with _ | ⟨a, b⟩
    · exact absurd hT hne
    · rfl
  rw [hkeyne]
  simp only [Bool.false_eq_true, if_false, List.drop_succ_cons, List.drop_zero]
  rw [trimChars_wsDropR]

/-- Trimming does nothing when the first and last characters are not
whitespace. -/
theorem trimChars_of_ends (l : List Char) (hne : l ≠ [])
    (hh : isWs (l.headD ' ') = false) (hl : isWs (l.getLastD ' ') = false) :
    trimChars l = l := by
  unfold trimChars wsDropL wsDropR
  have h1 : l.dropWhile isWs = l := by
    cases l with
    | nil => rfl
    | cons c t =>
      rw [List.headD_cons] at hh
      rw [List.dropWhile_cons, hh]
      simp
  rw [h1]
  rcases hr : l.reverse with _ | ⟨d, s⟩
  · rw [List.reverse_eq_nil_iff] at hr
    exact absurd hr hne
  · have hd : isWs d = false := by
      have h2 : l.reverse.headD ' ' = l.getLastD ' ' := by
        rw [List.headD_eq_head?_getD, List.head?_reverse, List.getLastD_eq_getLast?]
      rw [hr, List.headD_cons] at h2
      rw [← h2] at hl
      exact hl
    have h3 : (d :: s).dropWhile isWs = d :: s := by
      rw [List.dropWhile_cons, hd]
      simp
    rw [h3]
    conv_rhs => rw [← List.reverse_reverse l, hr]

/-- The key/value of a `KEY value remainder` line without `'='`: the value is
the second whitespace-delimited token only; the remainder is discarded. -/
theorem lineKV_ws_line (k w r : List Char)
    (hk : k ≠ []) (hkws : ∀ c ∈ k, isWs c = false) (hkeq : '=' ∉ k)
    (hstar : k.headD ' ' ≠ '*')
    (hw : w ≠ []) (hwws : ∀ c ∈ w, isWs c = false) (hweq : '=' ∉ w)
    (hr : r ≠ []) (hrws : ∀ c ∈ r, isWs c = false) (hreq : '=' ∉ r) :
    lineKV (k ++ ' ' :: (w ++ ' ' :: r)) = some (k.map Char.toUpper, w) := by
  obtain ⟨kc, kt, rfl⟩ : ∃ kc kt, k = kc :: kt := by
    rcases k with _ | ⟨kc, kt⟩
    · exact absurd rfl hk
    · exact ⟨kc, kt, rfl⟩
  have hlast : ((kc :: kt) ++ ' ' :: (w ++ ' ' :: r)).getLast? = r.getLast? := by
    rw [List.getLast?_append_of_ne_nil _ (by simp : (' ' :: (w ++ ' ' :: r)) ≠ [])]
    rw [show ' ' :: (w ++ ' ' :: r) = [' '] ++ (w ++ ' ' :: r) by simp,
      List.getLast?_append_of_ne_nil _ (by simp : (w ++ ' ' :: r) ≠ []),
      List.getLast?_append_of_ne_nil _ (by simp : (' ' :: r) ≠ []),
      show (' ' :: r) = [' '] ++ r by simp,
      List.getLast?_append_of_ne_nil _ hr]
  have hline : trimChars ((kc :: kt) ++ ' ' :: (w ++ ' ' :: r))
      = (kc :: kt) ++ ' ' :: (w ++ ' ' :: r) := by
    apply trimChars_of_ends
    · simp
    · rw [List.cons_append, List.headD_cons]
      exact hkws kc (by simp)
    · rw [List.getLastD_eq_getLast?, hlast]
      rcases hrr : r.getLast? with _ | ⟨d⟩
      · rw [List.getLast?_eq_none_iff] at hrr
        exact absurd hrr hr
      · have hmemr : d ∈ r := by
          obtain ⟨hx, hdx⟩ := List.mem_getLast?_eq_getLast
            (show d ∈ r.getLast? from by rw [hrr]; rfl)
          rw [hdx]
          exact List.getLast_mem hx
        simpa using hrws d hmemr
  have hmem : '=' ∉ ((kc :: kt) ++ ' ' :: (w ++ ' ' :: r)) := by
    intro hm
    have hsp : ('=' : Char) ≠ ' ' := by decide
    simp only [List.mem_append, List.mem_cons] at hm hkeq hweq hreq
    tauto
  unfold lineKV
  rw [hline, List.cons_append]
  simp only [List.isEmpty_cons, Bool.false_eq_true, if_false, List.headD_cons]
  rw [if_neg (by simpa using hstar)]
  have hnc : (kc :: (kt ++ ' ' :: (w ++ ' ' :: r))).contains '=' = false := by
    rcases hcc : (kc :: (kt ++ ' ' :: (w ++ ' ' :: r))).contains '=' with _ | _
    · rfl
    · exact absurd (List.mem_of_elem_eq_true hcc) hmem
  rw [hnc]
  simp only [Bool.false_eq_true, if_false]
  have hsplit : (kc :: (kt ++ ' ' :: (w ++ ' ' :: r))).splitOnP (fun c => isWs c)
      = (kc :: kt) :: w :: [r] := by
    rw [← List.cons_append]
    rw [List.splitOnP_first _ _ (fun x hx => by simp [hkws x hx]) ' ' rfl]
    rw [List.splitOnP_first _ _ (fun x hx => by simp [hwws x hx]) ' ' rfl]
    rw [List.splitOnP_eq_single _ _ (fun x hx => by simp [hrws x hx])]
  rw [hsplit]
  have hfilter : (((kc :: kt) :: w :: [r]).filter (fun p => !p.isEmpty))
      = (kc :: kt) :: w :: [r] := by
    rcases w with _ | ⟨wc, wt⟩
    · exact absurd rfl hw
    · rcases r with _ | ⟨rc, rt⟩
      · exact absurd rfl hr
      · rfl
  rw [hfilter]
  have hktrim : trimChars (kc :: kt) = kc :: kt :=
    trimChars_noWs _ hkws
  have hwtrim : trimChars w = w := trimChars_noWs _ hwws
  simp only [hktrim, hwtrim, List.isEmpty_cons, Bool.false_eq_true, if_false]

/-- `parseDscText` collects exactly the per-line contributions, in order. -/
theorem parseDscText_eq_filterMap (text : String) :
    parseDscText text = (splitOnChar '\n' text.data).filterMap lineKV := by
  unfold parseDscText
  generalize splitOnChar '\n' text.data = lines
  suffices h : ∀ (acc : Meta), lines.foldl
      (fun m line => match lineKV line with
        | some kv => m ++ [kv]
        | none => m) acc = acc ++ lines.filterMap lineKV by
    simpa using h []
  induction lines with
  | nil => intro acc; simp
  | cons l ls ih =>
    intro acc
    rw [List.foldl_cons, List.filterMap_cons]
    cases hkv : lineKV l with
    | none => rw [ih]
    | some kv =>
      rw [ih]
      simp

/-- C8 counterexample: for the descriptor line `TITL My Sample` (no `'='`),
the parser keeps only the second whitespace-delimited token `My` as the
value, not the remainder `My Sample` that the claim requires. -/
theorem c8_descriptor_counterexample :
    mget (parseDscText "TITL My Sample") "TITL".data = some "My".data ∧
    ¬ mget (parseDscText "TITL My Sample") "TITL".data = some "My Sample".data := by
  decide

/-- C8 amended: `parseDscText` skips blank lines and `*`-comments, maps a
line with `'='` from the upper-cased trimmed key to the trimmed text after
the first `'='`, splits a line without `'='` on whitespace runs keeping the
second token only as the value (any remainder is discarded), skips a
malformed line without aborting, and lets the last occurrence of a duplicate
key win. -/
theorem c8_descriptor_lines_amended :
    (∀ (text : String) (key : List Char),
      mget (parseDscText text) key =
        (((splitOnChar '\n' text.data).filterMap lineKV).reverse.find?
          (fun kv => kv.1 = key)).map Prod.snd) ∧
    (∀ line : List Char, trimChars line = [] → lineKV line = none) ∧
    (∀ line : List Char, (trimChars line).headD ' ' = '*' → lineKV line = none) ∧
    (∀ k v : List Char, '=' ∉ k → trimChars k ≠ [] →
      (trimChars k).headD ' ' ≠ '*' →
      lineKV (k ++ '=' :: v) = some ((trimChars k).map Char.toUpper, trimChars v)) ∧
    (∀ k w r : List Char,
      k ≠ [] → (∀ c ∈ k, isWs c = false) → '=' ∉ k → k.headD ' ' ≠ '*' →
      w ≠ [] → (∀ c ∈ w, isWs c = false) → '=' ∉ w →
      r ≠ [] → (∀ c ∈ r, isWs c = false) → '=' ∉ r →
      lineKV (k ++ ' ' :: (w ++ ' ' :: r)) = some (k.map Char.toUpper, w)) ∧
    (∀ k : List Char, k ≠ [] → (∀ c ∈ k, isWs c = false) → k.headD ' ' ≠ '*' →
      '=' ∉ k → lineKV k = none) ∧
    mget (parseDscText "A 1 x\nA 2 y") "A".data = some "2".data := by
  refine ⟨?_, ?_, ?_, ?_, ?_, ?_, by decide⟩
  · intro text key
    rw [parseDscText_eq_filterMap]
    rfl
  · intro line h
    unfold lineKV
    rw [h]
    rfl
  · intro line h
    by_cases he : (trimChars line).isEmpty = true
    · unfold lineKV
      rw [List.isEmpty_iff.mp he]
      rfl
    · obtain ⟨c, t0, hct⟩ : ∃ c t0, trimChars line = c :: t0 := by
        rcases hT : trimChars line with _ | ⟨c, t0⟩
        · rw [hT] at he
          exact absurd rfl he
        · exact ⟨c, t0, rfl⟩
      have hc : c = '*' := by
        rw [hct, List.headD_cons] at h
        exact h
      unfold lineKV
      rw [hct]
      simp only [List.isEmpty_cons, Bool.false_eq_true, if_false, List.headD_cons]
      rw [if_pos hc]
  · exact lineKV_eq_line
  · intro k w r h1 h2 h3 h4 h5 h6 h7 h8 h9 h10
    exact lineKV_ws_line k w r h1 h2 h3 h4 h5 h6 h7 h8 h9 h10
  · intro k hk hkws hstar hkeq
    obtain ⟨kc, kt, rfl⟩ : ∃ kc kt, k = kc :: kt := by
      rcases k with _ | ⟨kc, kt⟩
      · exact absurd rfl hk
      · exact ⟨kc, kt, rfl⟩
    have hktrim : trimChars (kc :: kt) = kc :: kt := trimChars_noWs _ hkws
    unfold lineKV
    rw [hktrim]
    simp only [List.isEmpty_cons, Bool.false_eq_true, if_false, List.headD_cons]
    rw [if_neg (by simpa using hstar)]
    have hnc : (kc :: kt).contains '=' = false := by
      rcases hcc : (kc :: kt).contains '=' with _ | _
      · rfl
      · exact absurd (List.mem_of_elem_eq_true hcc) hkeq
    rw [hnc]
    simp only [Bool.false_eq_true, if_false]
    rw [List.splitOnP_eq_single _ _ (fun x hx => by simp [hkws x hx])]
    rfl

/-- Witness for the amended C8 on concrete lines: an `'='` line keeps the
full trimmed remainder, a whitespace line keeps only the second token. -/
theorem c8_descriptor_lines_amended_witness :
    lineKV ("titl".data ++ '=' :: " My Sample ".data)
      = some ("TITL".data, "My Sample".data) ∧
    lineKV ("TITL".data ++ ' ' :: ("My".data ++ ' ' :: "Sample".data))
      = some ("TITL".data, "My".data) := by
  constructor
  · have h := c8_descriptor_lines_amended.2.2.2.1 "titl".data " My Sample ".data
      (by decide) (by decide) (by decide)
    rw [h]
    decide
  · have h := c8_descriptor_lines_amended.2.2.2.2.1 "TITL".data "My".data
      "Sample".data (by decide) (by decide) (by decide) (by decide) (by decide)
      (by decide) (by decide) (by decide) (by decide) (by decide)
    rw [h]
    decide

/-- C2: the top-level parse either returns a non-empty spectrum list or
fails with one of the zero-spectra error messages, and a dataset whose
assembly fails is skipped while processing continues: deleting a failing
candidate from the list does not change the result (per-dataset failures
never escape the loop). -/
theorem c2_archive_error_contract :
    (∀ (ms : List FolderInput) (rs : List RawInput),
      (∃ out, parseZipArchive ms rs = .ok out ∧ out ≠ []) ∨
      parseZipArchive ms rs = .error noSpectraMsg ∨
      parseZipArchive ms rs = .error noFilesMsg) ∧
    (∀ (pre post : List FolderInput) (x : FolderInput) (rs : List RawInput),
      assembleFolder x = none → pre ++ post ≠ [] →
      parseZipArchive (pre ++ x :: post) rs = parseZipArchive (pre ++ post) rs) ∧
    (∀ (pre post : List RawInput) (x : RawInput),
      assembleRawEntry x = none → pre ++ post ≠ [] →
      parseRawBes3t (pre ++ x :: post) = parseRawBes3t (pre ++ post)) := by
  refine ⟨?_, ?_, ?_⟩
  · intro ms rs
    unfold parseZipArchive parseRawBes3t
    by_cases hms : ms.isEmpty = true
    · rw [if_pos hms]
      by_cases hrs : rs.isEmpty = true
      · rw [if_pos hrs]
        right
        right
        rfl
      · rw [if_neg hrs]
        by_cases hc : (rs.filterMap assembleRawEntry).isEmpty = true
        · rw [if_pos hc]
          right
          left
          rfl
        · rw [if_neg hc]
          exact Or.inl ⟨rs.filterMap assembleRawEntry, rfl,
            by simpa [List.isEmpty_iff] using hc⟩
    · rw [if_neg hms]
      by_cases hc : (ms.filterMap assembleFolder).isEmpty = true
      · rw [if_pos hc]
        right
        left
        rfl
      · rw [if_neg hc]
        exact Or.inl ⟨ms.filterMap assembleFolder, rfl,
          by simpa [List.isEmpty_iff] using hc⟩
  · intro pre post x rs hx hne
    have hfm : (pre ++ x :: post).filterMap assembleFolder
        = (pre ++ post).filterMap assembleFolder := by
      rw [List.filterMap_append, List.filterMap_append, List.filterMap_cons, hx]
    unfold parseZipArchive
    rw [if_neg (show ¬ (pre ++ x :: post).isEmpty = true by simp)]
    rw [if_neg (show ¬ (pre ++ post).isEmpty = true from
      fun h => hne (List.isEmpty_iff.mp h))]
    rw [hfm]
  · intro pre post x hx hne
    have hfm : (pre ++ x :: post).filterMap assembleRawEntry
        = (pre ++ post).filterMap assembleRawEntry := by
      rw [List.filterMap_append, List.filterMap_append, List.filterMap_cons, hx]
    unfold parseRawBes3t
    rw [if_neg (show ¬ (pre ++ x :: post).isEmpty = true by simp)]
    rw [if_neg (show ¬ (pre ++ post).isEmpty = true from
      fun h => hne (List.isEmpty_iff.mp h))]
    rw [hfm]

/-- A structured candidate with no data members at all; its assembly fails. -/
def emptyFolder : FolderInput :=
  ⟨"d", "", none, none, none, none, none, none⟩

/-- Witness for C2: dropping a failing raw candidate (missing `.DTA`) from a
two-entry archive gives the same result as the one-entry archive, and
likewise for a structured candidate with no data member. -/
theorem c2_archive_error_contract_witness :
    parseRawBes3t [⟨"a", "XPTS 2", some [1, 2]⟩, ⟨"b", "", none⟩] =
      parseRawBes3t [⟨"a", "XPTS 2", some [1, 2]⟩] ∧
    parseZipArchive [emptyFolder, emptyFolder] [] =
      parseZipArchive [emptyFolder] [] := by
  constructor
  · exact c2_archive_error_contract.2.2 [⟨"a", "XPTS 2", some [1, 2]⟩] []
      ⟨"b", "", none⟩ rfl (by simp)
  · exact c2_archive_error_contract.2.1 [emptyFolder] [] emptyFolder []
      (by decide) (by simp)

/-- The three arrays of `build1DFromCsv` grow in lockstep with the rows. -/
theorem build1DAux_lengths :
    ∀ (rows : List (List ℚ)) (idx : ℕ),
      (build1DAux idx rows).1.length = rows.length ∧
      (build1DAux idx rows).2.1.length = rows.length ∧
      (build1DAux idx rows).2.2.length = rows.length := by
  intro rows
  induction rows with
  | nil => exact fun idx => ⟨rfl, rfl, rfl⟩
  | cons row rest ih =>
    intro idx
    obtain ⟨h1, h2, h3⟩ := ih (idx + 1)
    rcases row with _ | ⟨a, _ | ⟨b, _ | ⟨c, t⟩⟩⟩ <;>
      simp [build1DAux, h1, h2, h3]

/-- `normalizeXForTimeType` preserves length. -/
theorem normalizeXForTimeType_length (x : List ℚ) (t : SpectrumType) (l : String) :
    (normalizeXForTimeType x t l).length = x.length := by
  unfold normalizeXForTimeType
  repeat' split
  all_goals simp

/-- `normalizeAxisStart` of a present axis is present, with the same length. -/
theorem normalizeAxisStart_some (l : List ℚ) (m : AxisMeta) :
    ∃ out, normalizeAxisStart (some l) m = some out ∧ out.length = l.length := by
  cases l with
  | nil => exact ⟨[], rfl, rfl⟩
  | cons a t =>
    unfold normalizeAxisStart
    by_cases h1 : isTimeAxis m = true
    · by_cases h2 : a = 0
      · exact ⟨a :: t, by simp [h1, h2], rfl⟩
      · exact ⟨(a :: t).map (fun v => v - a), by simp [h1, h2], by simp⟩
    · exact ⟨a :: t, by simp [Bool.eq_false_iff.mpr h1], rfl⟩

/-- `buildAxis` with a positive declared count always yields a vector of
that length. -/
theorem buildAxis_some (v : Option (List ℚ)) (p : ℤ) (hp : 0 < p) :
    ∃ out, buildAxis v (some p) = some out ∧ (out.length : ℤ) = p := by
  have hiramp : ((iramp p).length : ℤ) = p := by
    simp [iramp]
    omega
  cases v with
  | none => exact ⟨iramp p, by simp [buildAxis, hp], hiramp⟩
  | some vs =>
    by_cases hl : vs.length = 0
    · exact ⟨iramp p, by simp [buildAxis, hp, hl], hiramp⟩
    · by_cases he : (vs.length : ℤ) = p
      · exact ⟨vs, by simp [buildAxis, hp, hl, he], he⟩
      · exact ⟨iramp p, by simp [buildAxis, hp, hl, he], hiramp⟩

/-- `axisVector` has the declared number of points. -/
theorem axisVector_length (ax : AxisGuess) : (axisVector ax).length = ax.points := by
  unfold axisVector
  repeat' split <;> simp

/-- The raw X vector has `XPTS` entries. -/
theorem rawXVector_length (base : String) (meta : Meta) :
    (rawXVector base meta).length = (rawXpts meta).toNat := by
  unfold rawXVector
  obtain ⟨out, ho, hl⟩ := normalizeAxisStart_some (axisVector (rawXAxisMeta meta))
    ⟨(rawXAxisMeta meta).name, (rawXAxisMeta meta).unit⟩
  rw [ho]
  show (normalizeXForTimeType out _ _).length = _
  rw [normalizeXForTimeType_length, hl, axisVector_length]
  rfl

/-- The raw real channel has `npts` entries when the size check passed. -/
theorem rawReal_length (meta : Meta) (numbers : List ℚ)
    (hlen : (numbers.length : ℤ) = rawExpected meta) :
    (rawReal meta numbers).length = (rawNpts meta).toNat := by
  unfold rawReal
  by_cases hc : isComplex meta = true
  · rw [if_pos hc]
    simp
  · rw [if_neg hc]
    rw [rawExpected, Bool.eq_false_iff.mpr hc] at hlen
    simp at hlen
    omega

/-- The raw imaginary channel always has `npts` entries. -/
theorem rawImag_length (meta : Meta) (numbers : List ℚ) :
    (rawImag meta numbers).length = (rawNpts meta).toNat := by
  unfold rawImag
  split <;> simp

/-- `folder1D` emits three arrays of equal length (one entry per data row). -/
theorem folder1D_shape (inp : FolderInput) (xAxis : Option (List ℚ))
    (rows : List (List ℚ)) :
    (folder1D inp xAxis rows).xData.length = rows.length ∧
    (folder1D inp xAxis rows).realData.length = rows.length ∧
    (folder1D inp xAxis rows).imagData.length = rows.length := by
  obtain ⟨h1, h2, h3⟩ := build1DAux_lengths rows 0
  have hb : build1DFromCsv rows = build1DAux 0 rows := rfl
  refine ⟨?_, ?_, ?_⟩
  · show (normalizeXForTimeType _ _ _).length = rows.length
    rw [normalizeXForTimeType_length]
    cases hx : xAxis with
    | none =>
      show (build1DFromCsv rows).1.length = rows.length
      rw [hb]
      exact h1
    | some xs =>
      by_cases hxl : xs.length = (build1DFromCsv rows).2.1.length
      · show (if xs.length = (build1DFromCsv rows).2.1.length then xs
          else (build1DFromCsv rows).1).length = rows.length
        rw [if_pos hxl, hxl, hb]
        exact h2
      · show (if xs.length = (build1DFromCsv rows).2.1.length then xs
          else (build1DFromCsv rows).1).length = rows.length
        rw [if_neg hxl, hb]
        exact h1
  · show (build1DFromCsv rows).2.1.length = rows.length
    rw [hb]
    exact h2
  · show (build1DFromCsv rows).2.2.length = rows.length
    rw [hb]
    exact h3

/-- Every row kept by `parseCsv` is non-empty. -/
theorem rowFilter_mem_ne (raw : List (List ℚ)) (row : List ℚ)
    (h : row ∈ rowFilter raw) : row.length ≠ 0 := by
  unfold rowFilter at h
  have := (List.mem_filter.mp h).2
  simpa using this

/-- The shape invariant claimed for every parsed spectrum. -/
def shapeOk : Spectrum → Bool
  | .oneD s => s.xData.length == s.realData.length &&
      s.realData.length == s.imagData.length
  | .twoD s => s.zData.length == s.yData.length &&
      s.zData.all (fun row => row.length == s.xData.length)

/-- A structured dataset whose `data_real.csv` matrix is ragged. -/
def raggedInput : FolderInput :=
  ⟨"d", "", none, none, none, none, none, some [[1, 2, 3], [1, 2]]⟩

/-- C1 counterexample: a structured dataset whose `data_real.csv` has a
short second row parses successfully into a 2-D spectrum whose second row
does not have `len(xData)` elements. -/
theorem c1_shape_counterexample :
    (assembleFolder raggedInput).map shapeOk = some false := by
  decide

/-- Structured 1-D extraction: a one-dimensional result always comes from
`folder1D` on the filtered rows of one of the two CSV members. -/
theorem assembleFolder_oneD (inp : FolderInput) (s : Spec1D)
    (heq : assembleFolder inp = some (.oneD s)) :
    ∃ rows, s = folder1D inp (folderXAxis inp) rows := by
  unfold assembleFolder at heq
  cases hd : inp.dataCsv with
  | some raw =>
    rw [hd] at heq
    exact ⟨rowFilter raw, (Spectrum.oneD.inj (Option.some.inj heq)).symm⟩
  | none =>
    rw [hd] at heq
    cases hr : inp.realCsv with
    | none =>
      rw [hr] at heq
      exact Option.noConfusion heq
    | some raw =>
      rw [hr] at heq
      dsimp only at heq
      by_cases hz : (rowFilter raw).length = 0
      · rw [if_pos hz] at heq
        exact Option.noConfusion heq
      · rw [if_neg hz] at heq
        by_cases h1d : (!(folderLooks2D inp (rowFilter raw)) &&
            ((rowFilter raw).headD []).length ≤ 2) = true
        · rw [if_pos h1d] at heq
          exact ⟨rowFilter raw, (Spectrum.oneD.inj (Option.some.inj heq)).symm⟩
        · rw [if_neg h1d] at heq
          simp at heq

/-- Structured 2-D extraction: a two-dimensional result is `folder2D` on a
non-empty filtered matrix. -/
theorem assembleFolder_twoD (inp : FolderInput) (s : Spec2D)
    (heq : assembleFolder inp = some (.twoD s)) :
    ∃ raw, inp.realCsv = some raw ∧ (rowFilter raw).length ≠ 0 ∧
      s = folder2D inp (rowFilter raw) := by
  unfold assembleFolder at heq
  cases hd : inp.dataCsv with
  | some raw =>
    rw [hd] at heq
    simp at heq
  | none =>
    rw [hd] at heq
    cases hr : inp.realCsv with
    | none =>
      rw [hr] at heq
      exact Option.noConfusion heq
    | some raw =>
      rw [hr] at heq
      dsimp only at heq
      by_cases hz : (rowFilter raw).length = 0
      · rw [if_pos hz] at heq
        exact Option.noConfusion heq
      · rw [if_neg hz] at heq
        by_cases h1d : (!(folderLooks2D inp (rowFilter raw)) &&
            ((rowFilter raw).headD []).length ≤ 2) = true
        · rw [if_pos h1d] at heq
          simp at heq
        · rw [if_neg h1d] at heq
          exact ⟨raw, rfl, hz, (Spectrum.twoD.inj (Option.some.inj heq)).symm⟩

/-- Raw extraction: a 1-D raw result is `raw1D` with all guards passed. -/
theorem assembleRaw_oneD (base : String) (meta : Meta) (numbers : List ℚ)
    (s : Spec1D) (heq : assembleRaw base meta numbers = some (.oneD s)) :
    0 < rawXpts meta ∧ (numbers.length : ℤ) = rawExpected meta ∧
      rawYpts meta ≤ 1 ∧ s = raw1D base meta numbers := by
  have hx : ¬ (rawXpts meta ≤ 0) := by
    intro hx
    rw [assembleRaw, if_pos hx] at heq
    exact Option.noConfusion heq
  have hlen : ¬ ((numbers.length : ℤ) ≠ rawExpected meta) := by
    intro hcontra
    rw [assembleRaw, if_neg hx, if_pos hcontra] at heq
    exact Option.noConfusion heq
  have hy : ¬ (1 < rawYpts meta) := by
    intro hcontra
    rw [assembleRaw, if_neg hx, if_neg hlen, if_pos hcontra] at heq
    simp at heq
  rw [assembleRaw, if_neg hx, if_neg hlen, if_neg hy] at heq
  exact ⟨by omega, not_ne_iff.mp hlen, by omega,
    (Spectrum.oneD.inj (Option.some.inj heq)).symm⟩

/-- Raw extraction: a 2-D raw result is `raw2D` with all guards passed. -/
theorem assembleRaw_twoD (base : String) (meta : Meta) (numbers : List ℚ)
    (s : Spec2D) (heq : assembleRaw base meta numbers = some (.twoD s)) :
    0 < rawXpts meta ∧ (numbers.length : ℤ) = rawExpected meta ∧
      1 < rawYpts meta ∧ s = raw2D base meta numbers := by
  have hx : ¬ (rawXpts meta ≤ 0) := by
    intro hx
    rw [assembleRaw, if_pos hx] at heq
    exact Option.noConfusion heq
  have hlen : ¬ ((numbers.length : ℤ) ≠ rawExpected meta) := by
    intro hcontra
    rw [assembleRaw, if_neg hx, if_pos hcontra] at heq
    exact Option.noConfusion heq
  by_cases hy : 1 < rawYpts meta
  · rw [assembleRaw, if_neg hx, if_neg hlen, if_pos hy] at heq
    exact ⟨by omega, not_ne_iff.mp hlen, hy,
      (Spectrum.twoD.inj (Option.some.inj heq)).symm⟩
  · rw [assembleRaw, if_neg hx, if_neg hlen, if_neg hy] at heq
    simp at heq

/-- The number of points declared on `XPTS*YPTS` in natural form, once the
guards of the raw loop passed. -/
theorem rawNpts_toNat (meta : Meta) (hx : 0 < rawXpts meta)
    (hy : 0 < rawYpts meta) :
    (rawNpts meta).toNat = (rawXpts meta).toNat * (rawYpts meta).toNat := by
  rw [rawNpts]
  have h1 : rawXpts meta = ((rawXpts meta).toNat : ℤ) :=
    (Int.toNat_of_nonneg (by omega)).symm
  have h2 : rawYpts meta = ((rawYpts meta).toNat : ℤ) :=
    (Int.toNat_of_nonneg (by omega)).symm
  rw [h1, h2, ← Nat.cast_mul]
  rfl

/-- C1 (amended): every 1-D spectrum from the structured strategy satisfies
`len(xData) = len(realData) = len(imagData)`; every 2-D spectrum from either
strategy satisfies `len(zData) = len(yData)`; in the raw strategy every row
of `zData` has `len(xData)` entries, while in the structured strategy only
the first row is guaranteed to (the matrix is taken verbatim and may be
ragged); a raw 1-D spectrum always has `len(realData) = len(imagData)`, and
`len(xData)` also agrees except in the degenerate `YPTS = 0` case; at the
archive level every spectrum of a successful parse satisfies the common part
of the invariant. -/
theorem c1_shape_amended :
    (∀ (inp : FolderInput) (s : Spec1D),
      assembleFolder inp = some (.oneD s) →
      s.xData.length = s.realData.length ∧
        s.realData.length = s.imagData.length) ∧
    (∀ (inp : FolderInput) (s : Spec2D),
      assembleFolder inp = some (.twoD s) →
      s.zData.length = s.yData.length ∧
        (s.zData.headD []).length = s.xData.length) ∧
    (∀ (base : String) (meta : Meta) (numbers : List ℚ) (s : Spec2D),
      assembleRaw base meta numbers = some (.twoD s) →
      s.zData.length = s.yData.length ∧
        ∀ row ∈ s.zData, row.length = s.xData.length) ∧
    (∀ (base : String) (meta : Meta) (numbers : List ℚ) (s : Spec1D),
      assembleRaw base meta numbers = some (.oneD s) →
      s.realData.length = s.imagData.length ∧
        (rawYpts meta = 1 → s.xData.length = s.realData.length)) ∧
    (∀ (ms : List FolderInput) (rs : List RawInput) (out : List Spectrum),
      parseZipArchive ms rs = .ok out →
      ∀ sp ∈ out,
        (∀ s : Spec1D, sp = .oneD s → s.realData.length = s.imagData.length) ∧
        (∀ s : Spec2D, sp = .twoD s → s.zData.length = s.yData.length)) := by
  have hA : ∀ (inp : FolderInput) (s : Spec1D),
      assembleFolder inp = some (.oneD s) →
      s.xData.length = s.realData.length ∧
        s.realData.length = s.imagData.length := by
    intro inp s heq
    obtain ⟨rows, rfl⟩ := assembleFolder_oneD inp s heq
    obtain ⟨h1, h2, h3⟩ := folder1D_shape inp (folderXAxis inp) rows
    exact ⟨h1.trans h2.symm, h2.trans h3.symm⟩
  have hB : ∀ (inp : FolderInput) (s : Spec2D),
      assembleFolder inp = some (.twoD s) →
      s.zData.length = s.yData.length ∧
        (s.zData.headD []).length = s.xData.length := by
    intro inp s heq
    obtain ⟨raw, hr, hz, rfl⟩ := assembleFolder_twoD inp s heq
    obtain ⟨outY, hoY, hlY⟩ := buildAxis_some (folderYAxis inp)
      ((rowFilter raw).length : ℤ) (by omega)
    have hhead : ((rowFilter raw).headD []).length ≠ 0 := by
      apply rowFilter_mem_ne raw
      rcases hm : rowFilter raw with _ | ⟨a, t⟩
      · rw [hm] at hz
        simp at hz
      · simp
    obtain ⟨outX, hoX, hlX⟩ := buildAxis_some (folderXAxis inp)
      (((rowFilter raw).headD []).length : ℤ) (by omega)
    simp only [folder2D]
    constructor
    · rw [hoY]
      simp only [Option.getD_some]
      omega
    · rw [hoX]
      simp only [Option.getD_some]
      omega
  have hC : ∀ (base : String) (meta : Meta) (numbers : List ℚ) (s : Spec2D),
      assembleRaw base meta numbers = some (.twoD s) →
      s.zData.length = s.yData.length ∧
        ∀ row ∈ s.zData, row.length = s.xData.length := by
    intro base meta numbers s heq
    obtain ⟨hx, hlen, hy, rfl⟩ := assembleRaw_twoD base meta numbers s heq
    obtain ⟨outY, hoY, hlY⟩ := normalizeAxisStart_some
      (axisVector (rawYAxisMeta meta))
      ⟨(rawYAxisMeta meta).name, (rawYAxisMeta meta).unit⟩
    have hYpts : (rawYAxisMeta meta).points = (rawYpts meta).toNat := by
      show (if 0 < rawYpts meta then (rawYpts meta).toNat else 1) = _
      rw [if_pos (by omega)]
    constructor
    · simp only [raw2D]
      rw [hoY]
      simp only [Option.getD_some, List.length_map, List.length_range]
      rw [hlY, axisVector_length, hYpts]
    · intro row hrow
      simp only [raw2D] at hrow ⊢
      rw [rawXVector_length]
      obtain ⟨i, hi, hroweq⟩ := List.mem_map.mp hrow
      have hilt : i < (rawYpts meta).toNat := List.mem_range.mp hi
      have hreal : (rawReal meta numbers).length = (rawNpts meta).toNat :=
        rawReal_length meta numbers hlen
      have hnn : (rawNpts meta).toNat
          = (rawXpts meta).toNat * (rawYpts meta).toNat :=
        rawNpts_toNat meta hx (by omega)
      rw [← hroweq]
      rw [List.length_take, List.length_drop, hreal, hnn]
      have hsub : (rawXpts meta).toNat * (rawYpts meta).toNat
          - i * (rawXpts meta).toNat
          = ((rawYpts meta).toNat - i) * (rawXpts meta).toNat := by
        rw [Nat.mul_comm ((rawYpts meta).toNat - i) ((rawXpts meta).toNat),
          Nat.mul_sub_left_distrib]
        ring_nf
      rw [hsub]
      have hge : (rawXpts meta).toNat ≤ ((rawYpts meta).toNat - i)
          * (rawXpts meta).toNat := by
        have h1 : 1 ≤ (rawYpts meta).toNat - i := by omega
        calc (rawXpts meta).toNat = 1 * (rawXpts meta).toNat := by ring
          _ ≤ ((rawYpts meta).toNat - i) * (rawXpts meta).toNat :=
            Nat.mul_le_mul_right _ h1
      omega
  have hD : ∀ (base : String) (meta : Meta) (numbers : List ℚ) (s : Spec1D),
      assembleRaw base meta numbers = some (.oneD s) →
      s.realData.length = s.imagData.length ∧
        (rawYpts meta = 1 → s.xData.length = s.realData.length) := by
    intro base meta numbers s heq
    obtain ⟨hx, hlen, hy, rfl⟩ := assembleRaw_oneD base meta numbers s heq
    have hreal : (rawReal meta numbers).length = (rawNpts meta).toNat :=
      rawReal_length meta numbers hlen
    have himag : (rawImag meta numbers).length = (rawNpts meta).toNat :=
      rawImag_length meta numbers
    constructor
    · show (rawReal meta numbers).length = (rawImag meta numbers).length
      rw [hreal, himag]
    · intro h1
      show (rawXVector base meta).length = (rawReal meta numbers).length
      rw [rawXVector_length, hreal, rawNpts, h1, mul_one]
  refine ⟨hA, hB, hC, hD, ?_⟩
  intro ms rs out hok sp hsp
  have hmain : ∀ sp2 : Spectrum,
      ((∃ inp, assembleFolder inp = some sp2) ∨
       (∃ base meta numbers, assembleRaw base meta numbers = some sp2)) →
      (∀ s : Spec1D, sp2 = .oneD s → s.realData.length = s.imagData.length) ∧
      (∀ s : Spec2D, sp2 = .twoD s → s.zData.length = s.yData.length) := by
    intro sp2 hsrc
    constructor
    · intro s hs
      subst hs
      rcases hsrc with ⟨inp, h⟩ | ⟨base, meta, numbers, h⟩
      · exact ((hA inp s h).1.symm.trans (hA inp s h).1).symm ▸ (hA inp s h).2
      · exact (hD base meta numbers s h).1
    · intro s hs
      subst hs
      rcases hsrc with ⟨inp, h⟩ | ⟨base, meta, numbers, h⟩
      · exact (hB inp s h).1
      · exact (hC base meta numbers s h).1
  apply hmain
  unfold parseZipArchive at hok
  by_cases hms : ms.isEmpty = true
  · rw [if_pos hms] at hok
    unfold parseRawBes3t at hok
    by_cases hrs : rs.isEmpty = true
    · rw [if_pos hrs] at hok
      exact absurd hok (by simp)
    · rw [if_neg hrs] at hok
      by_cases hc : (rs.filterMap assembleRawEntry).isEmpty = true
      · rw [if_pos hc] at hok
        exact absurd hok (by simp)
      · rw [if_neg hc] at hok
        have hout : out = rs.filterMap assembleRawEntry :=
          (Except.ok.inj hok).symm
        subst hout
        obtain ⟨r, _, hr⟩ := List.mem_filterMap.mp hsp
        cases hd : r.dta with
        | none =>
          unfold assembleRawEntry at hr
          rw [hd] at hr
          exact absurd hr (by simp)
        | some nums =>
          unfold assembleRawEntry at hr
          rw [hd] at hr
          exact Or.inr ⟨r.base, parseDscText r.dscText, nums, hr⟩
  · rw [if_neg hms] at hok
    by_cases hc : (ms.filterMap assembleFolder).isEmpty = true
    · rw [if_pos hc] at hok
      exact absurd hok (by simp)
    · rw [if_neg hc] at hok
      have hout : out = ms.filterMap assembleFolder := (Except.ok.inj hok).symm
      subst hout
      obtain ⟨inp, _, hinp⟩ := List.mem_filterMap.mp hsp
      exact Or.inl ⟨inp, hinp⟩

/-- Witness for the amended C1: the structured dataset `folderW` and the raw
complex dataset over `metaC` satisfy the amended shape facts. -/
def folderW : FolderInput :=
  ⟨"w", "", none, none, none, none, some [[0, 1], [1, 2]], none⟩

/-- Witness for the amended C1 at two concrete datasets. -/
theorem c1_shape_amended_witness :
    (folder1D folderW (folderXAxis folderW) (rowFilter [[0, 1], [1, 2]])).xData.length
      = (folder1D folderW (folderXAxis folderW)
          (rowFilter [[0, 1], [1, 2]])).realData.length ∧
    (raw1D "a" metaC [1, 2, 3, 4]).realData.length
      = (raw1D "a" metaC [1, 2, 3, 4]).imagData.length := by
  constructor
  · exact (c1_shape_amended.1 folderW _ rfl).1
  · exact (c1_shape_amended.2.2.2.1 "a" metaC [1, 2, 3, 4] _ metaC_assemble).1

end SpectraExplorer
